import Mathlib

/-!
# taqweem: KSA civil days, Hijri dates and Arabic duration text

A shallow embedding of `taqweem.go` and the properties of its date-boundary
logic and of its duration formatter.

Modelling conventions.

* `time.Time` is an instant, counted in nanoseconds from the Unix epoch as an
  unbounded integer, together with a `Location`.  The finite range of
  `time.Time` (about 292 billion years either side of year 1) is not modelled.
* A `Location` is a fixed offset east of UTC.  The package uses UTC and
  `Asia/Riyadh`; the latter is taken at its offset of +3h.
* `Time.Date` and `time.Date` follow the standard library: the proleptic
  Gregorian calendar split into 400-, 100-, 4- and 1-year cycles, counted here
  from 1 January of year 1.
* `time.Duration` is an integer number of nanoseconds.
* `uint` fields are natural numbers; `uint` arithmetic wraps at `2 ^ 64`.
* The Hijri conversion library and the locale printer are not part of the
  package; they enter as parameters.  The specification describes the forward
  conversion as a function of the instant; a theorem that needs this says so
  in a hypothesis.  `arabicNumeral` models the printer's rendering of `%d`
  from the specification, for the examples.
-/

namespace Taqweem

/-! ## The standard library's `time` package -/

/-- A time zone: a fixed offset from UTC, in seconds east. -/
structure Location where
  offset : Int
deriving DecidableEq, Repr

/-- The zone `time.UTC`. -/
def utcLoc : Location := ⟨0⟩

/-- A `time.Time`: an instant (nanoseconds since the Unix epoch) seen in a zone. -/
structure Time where
  unixNano : Int
  loc : Location
deriving DecidableEq, Repr

/-! A `time.Duration` is an integer number of nanoseconds. -/

def Nanosecond : Int := 1
def Second : Int := 1000000000
def Minute : Int := 60 * Second
def Hour : Int := 60 * Minute

def secondsPerMinute : Int := 60
def secondsPerHour : Int := 3600
def secondsPerDay : Int := 86400

/-- Days from 1 January of year 1 to the Unix epoch, 1 January 1970. -/
def unixEpochDays : Int := 719162

def daysPer400Years : Int := 146097
def daysPer100Years : Int := 36524
def daysPer4Years : Int := 1461

/-- The method `Time.UTC`: same instant, zone UTC. -/
def Time.UTC (t : Time) : Time := { t with loc := utcLoc }

/-- The method `Time.In`: same instant, another zone. -/
def Time.In (t : Time) (loc : Location) : Time := { t with loc := loc }

/-- The method `Time.Location`. -/
def Time.Location (t : Time) : Location := t.loc

/-- The method `Time.Add`. -/
def Time.Add (t : Time) (d : Int) : Time := { t with unixNano := t.unixNano + d }

/-- The method `Time.Sub`: the duration between two instants. -/
def Time.Sub (t u : Time) : Int := t.unixNano - u.unixNano

/-- The method `Time.After`: strictly later instant. -/
def Time.After (t u : Time) : Bool := decide (u.unixNano < t.unixNano)

/-- The method `Time.Before`: strictly earlier instant. -/
def Time.Before (t u : Time) : Bool := decide (t.unixNano < u.unixNano)

/-- Leap years of the proleptic Gregorian calendar. -/
def isLeap (year : Int) : Bool :=
  year % 4 == 0 && (year % 100 != 0 || year % 400 == 0)

/-- The table `daysBefore`: days in a non-leap year before month `m + 1`. -/
def daysBefore (m : Int) : Int :=
  [0, 31, 59, 90, 120, 151, 181, 212, 243, 273, 304, 334, 365].getD m.toNat 0

/-- Days from 1 January of year 1 to 1 January of `year`, by cycles. -/
def daysSinceEpoch (year : Int) : Int :=
  let y := year - 1
  let n400 := y / 400
  let y := y - 400 * n400
  let d := daysPer400Years * n400
  let n100 := y / 100
  let y := y - 100 * n100
  let d := d + daysPer100Years * n100
  let n4 := y / 4
  let y := y - 4 * n4
  let d := d + daysPer4Years * n4
  d + 365 * y

/-- The year and the zero-based day of the year of a day number (days since
1 January of year 1): the first half of `absDate`. -/
def yearDay (days : Int) : Int × Int :=
  let n := days / daysPer400Years
  let y := 400 * n
  let d := days - daysPer400Years * n
  let n := d / daysPer100Years
  let n := n - n / 4
  let y := y + 100 * n
  let d := d - daysPer100Years * n
  let n := d / daysPer4Years
  let y := y + 4 * n
  let d := d - daysPer4Years * n
  let n := d / 365
  let n := n - n / 4
  let y := y + n
  let d := d - 365 * n
  (y + 1, d)

/-- The month and day of the month of a zero-based day of the year: the second
half of `absDate`. -/
def monthDay (leap : Bool) (yday : Int) : Int × Int :=
  if leap && yday == 31 + 29 - 1 then (2, 29)
  else
    let day := if leap && decide (yday > 31 + 29 - 1) then yday - 1 else yday
    let month := day / 31
    let e := daysBefore (month + 1)
    if day ≥ e then (month + 2, day - e + 1)
    else (month + 1, day - daysBefore month + 1)

/-- The function `absDate`: year, month and day of a day number. -/
def absDate (days : Int) : Int × Int × Int :=
  let yd := yearDay days
  let md := monthDay (isLeap yd.1) yd.2
  (yd.1, md.1, md.2)

/-- The day number (days since 1 January of year 1) on which an instant falls
in its zone. -/
def Time.absDays (t : Time) : Int :=
  (t.unixNano / 1000000000 + t.loc.offset) / secondsPerDay + unixEpochDays

/-- The method `Time.Date`: year, month and day in the zone of `t`. -/
def Time.Date (t : Time) : Int × Int × Int := absDate t.absDays

/-- The method `Time.Weekday`: 0 is Sunday; 1 January of year 1 is a Monday. -/
def Time.Weekday (t : Time) : Int := (t.absDays + 1) % 7

/-- The function `norm`: carry `lo` into `hi` so that `0 ≤ lo < base`. -/
def norm (hi lo base : Int) : Int × Int :=
  let r1 : Int × Int :=
    if lo < 0 then
      let n := (-lo - 1) / base + 1
      (hi - n, lo + n * base)
    else (hi, lo)
  if r1.2 ≥ base then
    let n := r1.2 / base
    (r1.1 + n, r1.2 - n * base)
  else r1

/-- The function `time.Date`: the instant of a civil date and clock reading in
a zone, with out-of-range fields normalised. -/
def goDate (year month day hour min sec nsec : Int) (loc : Location) : Time :=
  let ym := norm year (month - 1) 12
  let year := ym.1
  let month := ym.2 + 1
  let sn := norm sec nsec 1000000000
  let ms := norm min sn.1 60
  let hm := norm hour ms.1 60
  let dh := norm day hm.1 24
  let d := daysSinceEpoch year
  let d := d + daysBefore (month - 1)
  let d := if isLeap year && decide (month ≥ 3) then d + 1 else d
  let d := d + (dh.1 - 1)
  let abs := d * secondsPerDay + (dh.2 * secondsPerHour + hm.2 * secondsPerMinute + ms.2)
  let unix := abs - unixEpochDays * secondsPerDay - loc.offset
  { unixNano := unix * 1000000000 + sn.2, loc := loc }

/-! ## KSATime -/

/-- The type `KSATime`, a `time.Time` under another name. -/
abbrev KSATime := Time

/-- The function `KSATimeOf`. -/
def KSATimeOf (t : Time) : KSATime := t.UTC.Add (3 * Hour)

/-- The method `KSATime.ksaDayInUTC`. -/
def KSATime.ksaDayInUTC (t : KSATime) (inc : Int) : Time :=
  let s := Time.UTC t
  let ymd := s.Date
  let nd := (goDate ymd.1 ymd.2.1 (ymd.2.2 + inc) 0 0 0 0 s.Location).Add (-3 * Hour)
  nd

/-- The method `KSATime.CurrentDayStartInUTC`. -/
def KSATime.CurrentDayStartInUTC (t : KSATime) : Time := KSATime.ksaDayInUTC t 0

/-- The method `KSATime.NextDayStartInUTC`. -/
def KSATime.NextDayStartInUTC (t : KSATime) : Time := KSATime.ksaDayInUTC t 1

/-- The method `KSATime.DayContains`. -/
def KSATime.DayContains (t : KSATime) (timeToCheck : Time) : Bool :=
  timeToCheck.UTC.After (KSATime.CurrentDayStartInUTC t) &&
    timeToCheck.UTC.Before (KSATime.NextDayStartInUTC t)

/-! ## The Hijri conversion library -/

/-- The library type `hijri.UmmAlQuraDate`; its fields are `int64`. -/
structure UmmAlQuraDate where
  Day : Int
  Month : Int
  Year : Int
  Weekday : Int
deriving DecidableEq, Repr

/-- The two conversions of the Hijri library, which is not part of the
package: `hijri.CreateUmmAlQuraDate` (its error result is dropped by every
caller) and the method `UmmAlQuraDate.ToGregorian`. -/
structure HijriLib where
  CreateUmmAlQuraDate : Time → UmmAlQuraDate
  ToGregorian : UmmAlQuraDate → Time

/-- The conversion `uint(v)` of an `int64`. -/
def toUint (v : Int) : Nat := (v % 2 ^ 64).toNat

/-- The conversion `int64(v)` of a `uint`. -/
def toInt64 (v : Nat) : Int :=
  if v % 2 ^ 64 < 2 ^ 63 then ((v % 2 ^ 64 : Nat) : Int) else ((v % 2 ^ 64 : Nat) : Int) - 2 ^ 64

/-- Addition of two `uint` values. -/
def uintAdd (a b : Nat) : Nat := (a + b) % 2 ^ 64

/-! ## HjriDate -/

/-- The struct `HjriDate`. -/
structure HjriDate where
  year : Nat
  month : Nat
  day : Nat
  weekday : Int
  t : Time
deriving DecidableEq, Repr

/-- The zone `Asia/Riyadh`, at its offset of three hours east of UTC. -/
def riyadhLoc : Location := ⟨10800⟩

/-- The function `HijriOf`. -/
def HijriOf (lib : HijriLib) (t : Time) : HjriDate :=
  let loc := riyadhLoc
  let v := lib.CreateUmmAlQuraDate (t.UTC.Add (3 * Hour))
  { year := toUint v.Year
    month := toUint v.Month
    day := toUint v.Day
    weekday := v.Weekday
    t := t.UTC.In loc }

/-- The method `HjriDate.Gregorian`. -/
def HjriDate.Gregorian (tn : HjriDate) : Time := tn.t

/-- The method `HjriDate.NextMonthStart`. -/
def HjriDate.NextMonthStart (lib : HijriLib) (t : HjriDate) : HjriDate :=
  let year := t.year
  let nextMonth := uintAdd t.month 1 % 12
  let year := if nextMonth = 1 then uintAdd year 1 else year
  let nd : UmmAlQuraDate :=
    { Day := 1, Month := toInt64 nextMonth, Year := toInt64 year, Weekday := 0 }
  let gnd := ((lib.ToGregorian nd).Add (-3 * Hour)).In t.t.Location
  { year := toUint nd.Year
    month := toUint nd.Month
    day := toUint nd.Day
    weekday := gnd.Weekday
    t := gnd }

/-- The method `HjriDate.dayTime`. -/
def HjriDate.dayTime (h : HjriDate) (inc : Int) : HjriDate :=
  let ymd := h.t.Date
  let nd := goDate ymd.1 ymd.2.1 (ymd.2.2 + inc) 0 0 0 0 h.t.Location
  { year := h.year
    month := h.month
    day := h.day
    weekday := h.weekday
    t := nd }

/-- The method `HjriDate.CurrentDayStart`. -/
def HjriDate.CurrentDayStart (t : HjriDate) : HjriDate := t.dayTime 0

/-- The method `HjriDate.NextDayStart`. -/
def HjriDate.NextDayStart (t : HjriDate) : HjriDate := t.dayTime 1

/-- The method `HjriDate.DayContains`. -/
def HjriDate.DayContains (h : HjriDate) (timeToCheck : Time) : Bool :=
  timeToCheck.UTC.After h.CurrentDayStart.t.UTC &&
    timeToCheck.UTC.Before h.NextDayStart.t.UTC

/-! ## float64 arithmetic

`Duration.Minutes` returns a `float64`.  A `float64` value is modelled by the
rational number it denotes, and every operation rounds its exact result to the
nearest value with a 53-bit significand, ties to even.  Exponent limits
(subnormal numbers, overflow) are not modelled; no value here comes near them. -/

/-- Halving `n` until it is below 2, at most `fuel` times, counting the steps. -/
def log2Aux : Nat → Nat → Nat
  | 0, _ => 0
  | fuel + 1, n => if n < 2 then 0 else log2Aux fuel (n / 2) + 1

/-- The floor of the binary logarithm of a positive natural number. -/
def floorLog2 (n : Nat) : Nat := log2Aux n n

/-- The binary exponent `e` of a non-zero rational: `2 ^ e ≤ |x| < 2 ^ (e + 1)`. -/
def binExp (x : ℚ) : ℤ :=
  let e0 : ℤ := (floorLog2 x.num.natAbs : ℤ) - (floorLog2 x.den : ℤ)
  if |x| < (2 : ℚ) ^ e0 then e0 - 1 else e0

/-- Rounding to the nearest integer, ties to the even one. -/
def roundNE (x : ℚ) : ℤ :=
  let n := ⌊x⌋
  let r := x - n
  if r < 1 / 2 then n
  else if 1 / 2 < r then n + 1
  else if n % 2 = 0 then n else n + 1

/-- Rounding of an exact result to `float64`. -/
def f64 (x : ℚ) : ℚ :=
  if x = 0 then 0 else
    let u : ℚ := (2 : ℚ) ^ (binExp x - 52)
    (roundNE (x / u) : ℚ) * u

/-- The conversion `int(f)` of a `float64`: truncation toward zero. -/
def truncInt (x : ℚ) : Int := Int.tdiv x.num x.den

/-- The method `Duration.Minutes` of the standard library:
`float64(d / Minute) + float64(d % Minute) / (60 * 1e9)`. -/
def Duration.Minutes (d : Int) : ℚ :=
  let min := Int.tdiv d Minute
  let nsec := Int.tmod d Minute
  f64 (f64 (min : ℚ) + f64 (f64 (nsec : ℚ) / 60000000000))

/-! ## Duration text -/

/-- The type `TimeUnit`, an `int`. -/
abbrev TimeUnit := Int

def DAY : TimeUnit := 0
def HOUR : TimeUnit := 1
def MINUTE : TimeUnit := 2

/-- The function `fmtDurationInAR`.  The printer of the text library renders
the verb `%d`; it is the parameter `numeral`.  The verb `%s` leaves its string
argument as it is. -/
def fmtDurationInAR (numeral : Int → String) (value : Int) (unit : TimeUnit) : String :=
  if value = 1 then
    if unit = DAY then "يوم"
    else if unit = HOUR then "ساعة"
    else if unit = MINUTE then "دقيقة"
    else ""
  else if value = 2 then
    if unit = DAY then "يومان"
    else if unit = HOUR then "ساعات"
    else if unit = MINUTE then "دقيقتان"
    else ""
  else if 3 ≤ value ∧ value ≤ 10 then
    if unit = DAY then numeral value ++ " " ++ "أيام"
    else if unit = HOUR then numeral value ++ " " ++ "ساعات"
    else if unit = MINUTE then numeral value ++ " " ++ "دقائق"
    else ""
  else
    if unit = DAY then numeral value ++ " " ++ "يوما"
    else if unit = HOUR then numeral value ++ " " ++ "ساعة"
    else if unit = MINUTE then numeral value ++ " " ++ "دقيقة"
    else ""

/-- The whole minutes of a duration as `DurationToMSU` computes them:
`int(d.Minutes())`. -/
def wholeMinutes (d : Int) : Int := truncInt (Duration.Minutes d)

/-- The function `DurationToMSU`. -/
def DurationToMSU (numeral : Int → String) (d : Int) : String :=
  let minutesPerHour : Int := 60
  let hoursPerDay : Int := 24
  let minutes := wholeMinutes d
  let days := Int.tdiv minutes (minutesPerHour * hoursPerDay)
  let hours := Int.tdiv (Int.tmod minutes (minutesPerHour * hoursPerDay)) minutesPerHour
  let remainingMinutes := Int.tmod minutes minutesPerHour
  let result := ""
  if days > 0 then fmtDurationInAR numeral days DAY
  else if hours > 0 then fmtDurationInAR numeral hours HOUR
  else if remainingMinutes > 0 then fmtDurationInAR numeral remainingMinutes MINUTE
  else result

/-- The unit that `DurationToMSU` renders and the value it renders it with, or
`none` when all three values are zero or negative: the branches of
`DurationToMSU` without the rendering. -/
def selectedUnit (d : Int) : Option (Int × TimeUnit) :=
  let minutes := wholeMinutes d
  let days := Int.tdiv minutes (60 * 24)
  let hours := Int.tdiv (Int.tmod minutes (60 * 24)) 60
  let remainingMinutes := Int.tmod minutes 60
  if days > 0 then some (days, DAY)
  else if hours > 0 then some (hours, HOUR)
  else if remainingMinutes > 0 then some (remainingMinutes, MINUTE)
  else none

/-- The Arabic-Indic glyph of a decimal digit; any other character is kept. -/
def arabicIndicDigit (c : Char) : Char :=
  if c.isDigit then
    ['٠', '١', '٢', '٣', '٤', '٥', '٦', '٧', '٨', '٩'].getD (c.toNat - 48) c
  else c

/-- Modelled from the spec: the rendering of the verb `%d` by the Arabic locale
printer of the text library, which is not part of the package.  Section 6
describes it: the decimal digits in Arabic-Indic glyphs.  Digit grouping is not
modelled; values below 1000 have none. -/
def arabicNumeral (v : Int) : String :=
  String.mk ((toString v).data.map arabicIndicDigit)

/-! ## More of the `time` package -/

/-- Seconds since the Unix epoch, moved by the offset of the zone of `t`: the
wall-clock seconds the library derives the date and the clock from. -/
def Time.localSec (t : Time) : Int := t.unixNano / 1000000000 + t.loc.offset

/-- The method `Time.Clock`: hour, minute and second within the day. -/
def Time.Clock (t : Time) : Int × Int × Int :=
  let sec := t.localSec % secondsPerDay
  let hour := sec / secondsPerHour
  let sec := sec - hour * secondsPerHour
  let min := sec / secondsPerMinute
  let sec := sec - min * secondsPerMinute
  (hour, min, sec)

/-- The method `Time.Hour`. -/
def Time.Hour (t : Time) : Int := t.Clock.1

/-- The method `Time.Minute`. -/
def Time.Minute (t : Time) : Int := t.Clock.2.1

/-- The method `Time.Second`. -/
def Time.Second (t : Time) : Int := t.Clock.2.2

/-- The method `Time.Nanosecond`. -/
def Time.Nanosecond (t : Time) : Int := t.unixNano % 1000000000

/-- The method `Time.Year`. -/
def Time.Year (t : Time) : Int := t.Date.1

/-- The method `Time.Month`. -/
def Time.Month (t : Time) : Int := t.Date.2.1

/-- The method `Time.Day`. -/
def Time.Day (t : Time) : Int := t.Date.2.2

/-- The method `Time.AddDate`. -/
def Time.AddDate (t : Time) (years months days : Int) : Time :=
  let ymd := t.Date
  let hms := t.Clock
  goDate (ymd.1 + years) (ymd.2.1 + months) (ymd.2.2 + days) hms.1 hms.2.1 hms.2.2
    t.Nanosecond t.Location

/-- The function `appendInt` of the library: the decimal digits of `x`, padded
with zeros to `width` digits, after a minus sign when `x` is negative. -/
def appendInt (x : Int) (width : Nat) : String :=
  let digits := toString x.natAbs
  (if x < 0 then "-" else "") ++ String.mk (List.replicate (width - digits.length) '0') ++ digits

/-- The text of a civil date in the layout `2006-01-02`. -/
def formatDate (ymd : Int × Int × Int) : String :=
  appendInt ymd.1 4 ++ "-" ++ appendInt ymd.2.1 2 ++ "-" ++ appendInt ymd.2.2 2

/-- The method `Time.Format` with the layout `2006-01-02`, the only layout the
package uses. -/
def Time.Format (t : Time) : String := formatDate t.Date

/-! ## KSATime: date strings -/

/-- The method `KSATime.Date`. -/
def KSATime.Date (t : KSATime) : String :=
  let currdate := Time.Format t
  currdate

/-- The method `KSATime.WeekDate`. -/
def KSATime.WeekDate (t : KSATime) : String :=
  let today : Time := t
  let ymd := Time.Date (Time.AddDate today 0 0 (-Time.Weekday today))
  Time.Format (goDate ymd.1 ymd.2.1 ymd.2.2 0 0 0 0 (Time.Location today))

/-- The method `KSATime.MonthDate`. -/
def KSATime.MonthDate (t : KSATime) : String :=
  let now : Time := t
  let ymd := Time.Date now
  let currentMonthStart := goDate ymd.1 ymd.2.1 1 0 0 0 0 (Time.Location now)
  let formattedDate := Time.Format currentMonthStart
  formattedDate

/-! ## HjriDate: navigation -/

/-- The method `HjriDate.AddDate`. -/
def HjriDate.AddDate (lib : HijriLib) (t : HjriDate) (years months days : Int) : HjriDate :=
  let tm := Time.AddDate t.t years months days
  let utm := lib.CreateUmmAlQuraDate tm
  { year := toUint utm.Year
    month := toUint utm.Month
    day := toUint utm.Day
    weekday := utm.Weekday
    t := tm }

/-- The method `HjriDate.WeekStartingDay`. -/
def HjriDate.WeekStartingDay (lib : HijriLib) (h : HjriDate) : HjriDate :=
  let weekStartG := Time.AddDate h.t 0 0 (-Time.Weekday h.t)
  let wsg := lib.CreateUmmAlQuraDate weekStartG
  { year := toUint wsg.Year
    month := toUint wsg.Month
    day := toUint wsg.Day
    weekday := wsg.Weekday
    t := goDate (Time.Year weekStartG) (Time.Month weekStartG) (Time.Day weekStartG) 0 0 0 0
      (Time.Location weekStartG) }

/-- The method `HjriDate.MonthStartingDay`. -/
def HjriDate.MonthStartingDay (lib : HijriLib) (h : HjriDate) : HjriDate :=
  let wsg : UmmAlQuraDate :=
    { Day := 1, Month := toInt64 h.month, Year := toInt64 h.year, Weekday := h.weekday }
  { year := toUint wsg.Year
    month := toUint wsg.Month
    day := toUint wsg.Day
    weekday := wsg.Weekday
    t := Time.In (Time.Add (lib.ToGregorian wsg) (-3 * Hour)) (Time.Location h.t) }

/-- The verb `%0wd` of `fmt.Sprintf` on a `uint`: decimal digits padded with
zeros to `width` digits. -/
def sprintfPadded (width : Nat) (v : Nat) : String :=
  let digits := toString v
  String.mk (List.replicate (width - digits.length) '0') ++ digits

/-- The method `HjriDate.String`. -/
def HjriDate.String (tn : HjriDate) : String :=
  sprintfPadded 4 tn.year ++ "-" ++ sprintfPadded 2 tn.month ++ "-" ++ sprintfPadded 2 tn.day

/-! ## A toy conversion library

A calendar of twelve months of thirty days.  Like the conversion of the
specification it is a function of the instant: it reads the UTC calendar day.
It shows that the assumptions made on the conversion library can be met, and
it serves to evaluate the code at concrete instants. -/

/-- The day number of a date of the toy calendar. -/
def toyDayNumber (u : UmmAlQuraDate) : Int :=
  (u.Year * 12 + (u.Month - 1)) * 30 + (u.Day - 1)

/-- The date of the toy calendar on a day number. -/
def toyDate (n : Int) : UmmAlQuraDate :=
  { Day := n % 30 + 1, Month := n / 30 % 12 + 1, Year := n / 30 / 12, Weekday := (n + 1) % 7 }

/-- The toy library.  Its forward conversion reads the UTC calendar day of the
instant, whatever zone the argument carries; its inverse returns midnight of
the day in UTC. -/
def toyLib : HijriLib :=
  { CreateUmmAlQuraDate := fun t => toyDate (Time.absDays (Time.UTC t))
    ToGregorian := fun u =>
      { unixNano := ((toyDayNumber u - unixEpochDays) * secondsPerDay - utcLoc.offset) *
          1000000000
        loc := utcLoc } }

/-! ## Calendar arithmetic -/

theorem cycles_split (n q d0 f c d1 e d2 j k d3 : Int)
    (hq : q = n / 146097) (hd0 : d0 = n - 146097 * q) (hf : f = d0 / 36524)
    (hc : c = f - f / 4) (hd1 : d1 = d0 - 36524 * c) (he : e = d1 / 1461)
    (hd2 : d2 = d1 - 1461 * e) (hj : j = d2 / 365) (hk : k = j - j / 4)
    (hd3 : d3 = d2 - 365 * k) :
    n = 146097 * q + 36524 * c + 1461 * e + 365 * k + d3 ∧
      (0 ≤ c ∧ c ≤ 3) ∧ (0 ≤ e ∧ e ≤ 24) ∧ (0 ≤ k ∧ k ≤ 3) ∧ (0 ≤ d3 ∧ d3 ≤ 365) ∧
      (d3 = 365 → k = 3 ∧ (e = 24 → c = 3)) := by
  have h0 : 0 ≤ d0 ∧ d0 < 146097 := by omega
  have hf4 : f = 0 ∨ f = 1 ∨ f = 2 ∨ f = 3 ∨ f = 4 := by omega
  have hc4 : c = 0 ∨ c = 1 ∨ c = 2 ∨ c = 3 := by omega
  have h1 : 0 ≤ d1 ∧ d1 ≤ 36524 ∧ (d1 = 36524 → c = 3) := by omega
  have he4 : 0 ≤ e ∧ e ≤ 24 := by omega
  have h2 : 0 ≤ d2 ∧ d2 < 1461 := by omega
  have hj4 : j = 0 ∨ j = 1 ∨ j = 2 ∨ j = 3 ∨ j = 4 := by omega
  have hk4 : k = 0 ∨ k = 1 ∨ k = 2 ∨ k = 3 := by omega
  have h3 : 0 ≤ d3 ∧ d3 ≤ 365 ∧ (d3 = 365 → k = 3) := by omega
  refine ⟨by omega, by omega, he4, by omega, by omega, ?_⟩
  intro h365
  refine ⟨h3.2.2 h365, ?_⟩
  intro he24
  apply h1.2.2
  omega

theorem daysSinceEpoch_cycles (q c e k : Int) (hc : 0 ≤ c ∧ c ≤ 3) (he : 0 ≤ e ∧ e ≤ 24)
    (hk : 0 ≤ k ∧ k ≤ 3) :
    daysSinceEpoch (400 * q + 100 * c + 4 * e + k + 1) =
        146097 * q + 36524 * c + 1461 * e + 365 * k ∧
      (k = 3 ∧ (e = 24 → c = 3) → isLeap (400 * q + 100 * c + 4 * e + k + 1) = true) := by
  constructor
  · simp only [daysSinceEpoch, daysPer400Years, daysPer100Years, daysPer4Years]
    have hy : 400 * q + 100 * c + 4 * e + k + 1 - 1 = 400 * q + (100 * c + 4 * e + k) := by ring
    have hq2 : (400 * q + (100 * c + 4 * e + k)) / 400 = q := by omega
    rw [hy, hq2]
    have hy2 : 400 * q + (100 * c + 4 * e + k) - 400 * q = 100 * c + (4 * e + k) := by ring
    rw [hy2]
    have hc2 : (100 * c + (4 * e + k)) / 100 = c := by omega
    rw [hc2]
    have hy3 : 100 * c + (4 * e + k) - 100 * c = 4 * e + k := by ring
    rw [hy3]
    have he2 : (4 * e + k) / 4 = e := by omega
    rw [he2]
    omega
  · rintro ⟨hk3, hec⟩
    simp only [isLeap, Bool.and_eq_true, Bool.or_eq_true, beq_iff_eq, bne_iff_ne, ne_eq]
    refine ⟨by omega, ?_⟩
    by_cases h24 : e = 24
    · right
      have := hec h24
      omega
    · left
      omega

theorem yearDay_spec (n : Int) :
    daysSinceEpoch (yearDay n).1 + (yearDay n).2 = n ∧ 0 ≤ (yearDay n).2 ∧
      (yearDay n).2 ≤ 365 ∧ ((yearDay n).2 = 365 → isLeap (yearDay n).1 = true) := by
  obtain ⟨h1, hc, he, hk, hd, hl⟩ :=
    cycles_split n _ _ _ _ _ _ _ _ _ _ rfl rfl rfl rfl rfl rfl rfl rfl rfl rfl
  simp only [yearDay, daysPer400Years, daysPer100Years, daysPer4Years]
  obtain ⟨hs, hleap⟩ := daysSinceEpoch_cycles _ _ _ _ hc he hk
  rw [hs]
  exact ⟨by omega, hd.1, hd.2, fun h => hleap (hl h)⟩

theorem monthDay_fin : ∀ (b : Bool) (k : Fin 366), ((k : Nat) = 365 → b = true) →
    (1 ≤ (monthDay b (k : Nat)).1 ∧ (monthDay b (k : Nat)).1 ≤ 12) ∧
      daysBefore ((monthDay b (k : Nat)).1 - 1) +
          (if b && decide ((monthDay b (k : Nat)).1 ≥ 3) then 1 else 0) +
          ((monthDay b (k : Nat)).2 - 1) = (k : Nat) := by
  decide!

theorem monthDay_spec (b : Bool) (yd : Int) (h0 : 0 ≤ yd) (h1 : yd ≤ 365)
    (hl : yd = 365 → b = true) :
    (1 ≤ (monthDay b yd).1 ∧ (monthDay b yd).1 ≤ 12) ∧
      daysBefore ((monthDay b yd).1 - 1) +
          (if b && decide ((monthDay b yd).1 ≥ 3) then 1 else 0) +
          ((monthDay b yd).2 - 1) = yd := by
  have hk : yd.toNat < 366 := by omega
  have hyd : ((yd.toNat : Nat) : Int) = yd := Int.toNat_of_nonneg h0
  have key := monthDay_fin b ⟨yd.toNat, hk⟩ (by intro h; apply hl; simp at h; omega)
  simp only [hyd] at key
  exact key

theorem norm_id (hi lo base : Int) (h0 : 0 ≤ lo) (h1 : lo < base) : norm hi lo base = (hi, lo) := by
  have h2 : ¬ lo < 0 := by omega
  have h3 : ¬ lo ≥ base := by omega
  simp only [norm, if_neg h2, if_neg h3]

/-- Rebuilding an instant from the civil date of a day number, shifted by `inc`
days, at midnight in a zone. -/
theorem goDate_absDate (n inc : Int) (loc : Location) :
    goDate (absDate n).1 (absDate n).2.1 ((absDate n).2.2 + inc) 0 0 0 0 loc =
      { unixNano := ((n + inc - unixEpochDays) * secondsPerDay - loc.offset) * 1000000000,
        loc := loc } := by
  obtain ⟨hs, h0, h1, hl⟩ := yearDay_spec n
  obtain ⟨hm, hd⟩ := monthDay_spec (isLeap (yearDay n).1) (yearDay n).2 h0 h1 hl
  simp only [absDate] at *
  simp only [goDate]
  rw [norm_id _ _ 12 (by omega) (by omega), norm_id 0 0 1000000000 (by omega) (by omega)]
  dsimp only
  rw [norm_id 0 0 60 (by omega) (by omega)]
  dsimp only
  rw [norm_id 0 0 60 (by omega) (by omega)]
  dsimp only
  rw [norm_id _ 0 24 (by omega) (by omega)]
  simp only [sub_add_cancel]
  congr 1
  simp only [secondsPerDay, unixEpochDays, secondsPerHour, secondsPerMinute] at *
  split_ifs at hd ⊢ <;> omega

/-! ## Conversions between `uint` and `int64` -/

theorem toUint_toInt64 (v : Nat) : toUint (toInt64 v) = v % 2 ^ 64 := by
  unfold toUint toInt64
  split_ifs <;> omega

/-! ## Day boundaries of a KSATime -/

/-- The boundary computed by `ksaDayInUTC`, in nanoseconds since the epoch. -/
theorem ksaDayInUTC_unixNano (t : KSATime) (inc : Int) :
    (KSATime.ksaDayInUTC t inc).unixNano =
      (t.unixNano / 86400000000000 + inc) * 86400000000000 - 10800000000000 := by
  simp only [KSATime.ksaDayInUTC, Time.Date, goDate_absDate, Time.Add, Time.absDays, Time.UTC,
    Time.Location, utcLoc, unixEpochDays, secondsPerDay, Hour, Minute, Second]
  have h : t.unixNano / 86400000000000 = t.unixNano / 1000000000 / 86400 := by omega
  rw [h]
  omega

/-- The instant `KSATimeOf x` is `x` moved three hours forward. -/
theorem KSATimeOf_unixNano (x : Time) : (KSATimeOf x).unixNano = x.unixNano + 10800000000000 := by
  simp [KSATimeOf, Time.Add, Time.UTC, Hour, Minute, Second]

/-- The current day of `KSATimeOf x` starts at or before `x`, and the next day
starts after `x`. -/
theorem ksaDay_bounds (x : Time) :
    (KSATime.CurrentDayStartInUTC (KSATimeOf x)).unixNano ≤ x.unixNano ∧
      x.unixNano < (KSATime.NextDayStartInUTC (KSATimeOf x)).unixNano ∧
      (KSATime.NextDayStartInUTC (KSATimeOf x)).unixNano =
        (KSATime.CurrentDayStartInUTC (KSATimeOf x)).unixNano + 86400000000000 ∧
      ((KSATime.CurrentDayStartInUTC (KSATimeOf x)).unixNano = x.unixNano ↔
        (x.unixNano + 10800000000000) % 86400000000000 = 0) := by
  simp only [KSATime.CurrentDayStartInUTC, KSATime.NextDayStartInUTC, ksaDayInUTC_unixNano,
    KSATimeOf_unixNano]
  omega

/-! ## Rounding to float64 -/

theorem log2Aux_spec : ∀ (fuel n : Nat), 1 ≤ n → n ≤ fuel →
    2 ^ log2Aux fuel n ≤ n ∧ n < 2 ^ (log2Aux fuel n + 1)
  | 0, n, h1, h2 => by omega
  | fuel + 1, n, h1, h2 => by
    unfold log2Aux
    split_ifs with h
    · simp
      omega
    · obtain ⟨ih1, ih2⟩ := log2Aux_spec fuel (n / 2) (by omega) (by omega)
      rw [pow_succ] at ih2 ⊢
      rw [pow_succ]
      constructor <;> omega

theorem floorLog2_spec (n : Nat) (h : 1 ≤ n) :
    2 ^ floorLog2 n ≤ n ∧ n < 2 ^ (floorLog2 n + 1) :=
  log2Aux_spec n n h le_rfl

theorem binExp_spec (x : ℚ) (hx : x ≠ 0) :
    (2 : ℚ) ^ binExp x ≤ |x| ∧ |x| < (2 : ℚ) ^ (binExp x + 1) := by
  have hp : 1 ≤ x.num.natAbs := by
    have : x.num ≠ 0 := Rat.num_ne_zero.mpr hx
    omega
  have hq : 1 ≤ x.den := x.den_pos
  obtain ⟨p1, p2⟩ := floorLog2_spec _ hp
  obtain ⟨q1, q2⟩ := floorLog2_spec _ hq
  have hx' : |x| = (x.num.natAbs : ℚ) / (x.den : ℚ) := by
    conv_lhs => rw [← Rat.num_div_den x]
    rw [abs_div, Nat.abs_cast]
    congr 1
    have h1 : |x.num| = (x.num.natAbs : ℤ) := Int.abs_eq_natAbs _
    rw [← Int.cast_abs, h1, Int.cast_natCast]
  have hdpos : (0 : ℚ) < (x.den : ℚ) := by exact_mod_cast hq
  have P1 : (2 : ℚ) ^ (floorLog2 x.num.natAbs : ℤ) ≤ (x.num.natAbs : ℚ) := by
    rw [zpow_natCast]; exact_mod_cast p1
  have P2 : (x.num.natAbs : ℚ) < (2 : ℚ) ^ ((floorLog2 x.num.natAbs : ℤ) + 1) := by
    have : ((floorLog2 x.num.natAbs : ℤ) + 1) = ((floorLog2 x.num.natAbs + 1 : ℕ) : ℤ) := by simp
    rw [this, zpow_natCast]; exact_mod_cast p2
  have Q1 : (2 : ℚ) ^ (floorLog2 x.den : ℤ) ≤ (x.den : ℚ) := by
    rw [zpow_natCast]; exact_mod_cast q1
  have Q2 : (x.den : ℚ) < (2 : ℚ) ^ ((floorLog2 x.den : ℤ) + 1) := by
    have : ((floorLog2 x.den : ℤ) + 1) = ((floorLog2 x.den + 1 : ℕ) : ℤ) := by simp
    rw [this, zpow_natCast]; exact_mod_cast q2
  have two_ne : (2 : ℚ) ≠ 0 := by norm_num
  -- upper bound: |x| < 2 ^ (e0 + 1)
  have U : |x| < (2 : ℚ) ^ ((floorLog2 x.num.natAbs : ℤ) - (floorLog2 x.den : ℤ) + 1) := by
    rw [hx', div_lt_iff₀ hdpos]
    calc (x.num.natAbs : ℚ) < (2 : ℚ) ^ ((floorLog2 x.num.natAbs : ℤ) + 1) := P2
      _ = (2 : ℚ) ^ ((floorLog2 x.num.natAbs : ℤ) - (floorLog2 x.den : ℤ) + 1) *
            (2 : ℚ) ^ (floorLog2 x.den : ℤ) := by
          rw [← zpow_add₀ two_ne]; congr 1; ring
      _ ≤ _ := by
          apply mul_le_mul_of_nonneg_left Q1
          exact le_of_lt (zpow_pos (by norm_num) _)
  have L : (2 : ℚ) ^ ((floorLog2 x.num.natAbs : ℤ) - (floorLog2 x.den : ℤ) - 1) ≤ |x| := by
    rw [hx', le_div_iff₀ hdpos]
    calc (2 : ℚ) ^ ((floorLog2 x.num.natAbs : ℤ) - (floorLog2 x.den : ℤ) - 1) * (x.den : ℚ)
        ≤ (2 : ℚ) ^ ((floorLog2 x.num.natAbs : ℤ) - (floorLog2 x.den : ℤ) - 1) *
            (2 : ℚ) ^ ((floorLog2 x.den : ℤ) + 1) := by
          apply mul_le_mul_of_nonneg_left (le_of_lt Q2)
          exact le_of_lt (zpow_pos (by norm_num) _)
      _ = (2 : ℚ) ^ (floorLog2 x.num.natAbs : ℤ) := by
          rw [← zpow_add₀ two_ne]; congr 1; ring
      _ ≤ _ := P1
  unfold binExp
  simp only
  split_ifs with h
  · refine ⟨L, ?_⟩
    simpa using h
  · exact ⟨not_lt.mp h, U⟩

theorem roundNE_le (x : ℚ) (N : ℤ) (h : x ≤ N) : roundNE x ≤ N := by
  have hf : ⌊x⌋ ≤ N := by
    have := Int.floor_le x
    exact_mod_cast (le_trans this h)
  have hfl := Int.floor_le x
  unfold roundNE
  simp only
  by_cases hr : x - ⌊x⌋ < 1 / 2
  · rw [if_pos hr]; exact hf
  · have hne : ⌊x⌋ ≠ N := by
      intro heq
      rw [heq] at hr hfl
      have : x = N := le_antisymm h hfl
      rw [this] at hr
      norm_num at hr
    have : ⌊x⌋ + 1 ≤ N := by omega
    rw [if_neg hr]
    split_ifs <;> omega

theorem le_roundNE (x : ℚ) (N : ℤ) (h : (N : ℚ) ≤ x) : N ≤ roundNE x := by
  have hf : N ≤ ⌊x⌋ := Int.le_floor.mpr h
  unfold roundNE
  simp only
  split_ifs <;> omega

theorem f64_nonneg (x : ℚ) (h : 0 ≤ x) : 0 ≤ f64 x := by
  unfold f64
  split_ifs with h0
  · exact le_rfl
  · have hu : (0 : ℚ) < (2 : ℚ) ^ (binExp x - 52) := zpow_pos (by norm_num) _
    have h1 : ((0 : ℤ) : ℚ) ≤ x / (2 : ℚ) ^ (binExp x - 52) := by
      simpa using div_nonneg h (le_of_lt hu)
    have h2 := le_roundNE _ 0 h1
    have h3 : (0 : ℚ) ≤ (roundNE (x / (2 : ℚ) ^ (binExp x - 52)) : ℚ) := by exact_mod_cast h2
    exact mul_nonneg h3 (le_of_lt hu)

theorem f64_nonpos (x : ℚ) (h : x ≤ 0) : f64 x ≤ 0 := by
  unfold f64
  split_ifs with h0
  · exact le_rfl
  · have hu : (0 : ℚ) < (2 : ℚ) ^ (binExp x - 52) := zpow_pos (by norm_num) _
    have h1 : x / (2 : ℚ) ^ (binExp x - 52) ≤ ((0 : ℤ) : ℚ) := by
      simpa using div_nonpos_of_nonpos_of_nonneg h (le_of_lt hu)
    have h2 := roundNE_le _ 0 h1
    have h3 : (roundNE (x / (2 : ℚ) ^ (binExp x - 52)) : ℚ) ≤ 0 := by exact_mod_cast h2
    exact mul_nonpos_of_nonpos_of_nonneg h3 (le_of_lt hu)

/-- A dyadic value `m * 2 ^ k` is a multiple of every finer unit `2 ^ (e - 52)`. -/
theorem dyadic_grid (m k e : ℤ) (hk : e - 52 ≤ k) :
    ∃ N : ℤ, (m : ℚ) * (2 : ℚ) ^ k = (N : ℚ) * (2 : ℚ) ^ (e - 52) := by
  obtain ⟨n, hn⟩ := Int.eq_ofNat_of_zero_le (show 0 ≤ k - (e - 52) by omega)
  refine ⟨m * 2 ^ n, ?_⟩
  have hk2 : k = (n : ℤ) + (e - 52) := by omega
  rw [hk2, zpow_add₀ (by norm_num : (2 : ℚ) ≠ 0), zpow_natCast]
  push_cast
  ring

theorem dyadic_lt_binade (m k e : ℤ) (hm : m < 2 ^ 53) (hk : k < e - 52) :
    (m : ℚ) * (2 : ℚ) ^ k < (2 : ℚ) ^ e := by
  have h1 : (m : ℚ) < (2 : ℚ) ^ (53 : ℤ) := by
    have : ((2 : ℤ) ^ 53 : ℤ) = (((2 : ℚ) ^ (53 : ℤ) : ℚ)) := by norm_num
    have h2 : (m : ℚ) < ((2 ^ 53 : ℤ) : ℚ) := by exact_mod_cast hm
    rw [this] at h2
    exact h2
  have hpos : (0 : ℚ) < (2 : ℚ) ^ k := zpow_pos (by norm_num) _
  calc (m : ℚ) * (2 : ℚ) ^ k < (2 : ℚ) ^ (53 : ℤ) * (2 : ℚ) ^ k :=
        mul_lt_mul_of_pos_right h1 hpos
    _ = (2 : ℚ) ^ (53 + k) := by rw [zpow_add₀ (by norm_num : (2 : ℚ) ≠ 0)]
    _ ≤ (2 : ℚ) ^ e := zpow_le_zpow_right₀ (by norm_num) (by omega)

/-- Rounding does not cross a `float64` value from below. -/
theorem f64_le_dyadic (x : ℚ) (m k : ℤ) (hx : 0 < x) (hm : m < 2 ^ 53)
    (h : x ≤ (m : ℚ) * (2 : ℚ) ^ k) : f64 x ≤ (m : ℚ) * (2 : ℚ) ^ k := by
  obtain ⟨b1, b2⟩ := binExp_spec x hx.ne'
  rw [abs_of_pos hx] at b1 b2
  have hk : binExp x - 52 ≤ k := by
    by_contra hc
    have := dyadic_lt_binade m k (binExp x) hm (by omega)
    linarith
  obtain ⟨N, hN⟩ := dyadic_grid m k (binExp x) hk
  have hu : (0 : ℚ) < (2 : ℚ) ^ (binExp x - 52) := zpow_pos (by norm_num) _
  unfold f64
  rw [if_neg hx.ne']
  simp only
  rw [hN] at h ⊢
  have h1 : x / (2 : ℚ) ^ (binExp x - 52) ≤ (N : ℚ) := by
    rw [div_le_iff₀ hu]; exact h
  have h2 : (roundNE (x / (2 : ℚ) ^ (binExp x - 52)) : ℚ) ≤ (N : ℚ) := by
    exact_mod_cast roundNE_le _ N h1
  exact mul_le_mul_of_nonneg_right h2 (le_of_lt hu)

/-- Rounding does not cross a `float64` value from above. -/
theorem dyadic_le_f64 (x : ℚ) (m k : ℤ) (hx : 0 < x) (hm : m < 2 ^ 53)
    (h : (m : ℚ) * (2 : ℚ) ^ k ≤ x) : (m : ℚ) * (2 : ℚ) ^ k ≤ f64 x := by
  obtain ⟨b1, b2⟩ := binExp_spec x hx.ne'
  rw [abs_of_pos hx] at b1 b2
  have hu : (0 : ℚ) < (2 : ℚ) ^ (binExp x - 52) := zpow_pos (by norm_num) _
  unfold f64
  rw [if_neg hx.ne']
  simp only
  by_cases hk : binExp x - 52 ≤ k
  · obtain ⟨N, hN⟩ := dyadic_grid m k (binExp x) hk
    rw [hN] at h ⊢
    have h1 : (N : ℚ) ≤ x / (2 : ℚ) ^ (binExp x - 52) := by
      rw [le_div_iff₀ hu]; exact h
    have h2 : (N : ℚ) ≤ (roundNE (x / (2 : ℚ) ^ (binExp x - 52)) : ℚ) := by
      exact_mod_cast le_roundNE _ N h1
    exact mul_le_mul_of_nonneg_right h2 (le_of_lt hu)
  · have h0 := dyadic_lt_binade m k (binExp x) hm (by omega)
    have h52 : (2 : ℚ) ^ binExp x = ((2 ^ 52 : ℤ) : ℚ) * (2 : ℚ) ^ (binExp x - 52) := by
      have : binExp x = 52 + (binExp x - 52) := by ring
      conv_lhs => rw [this, zpow_add₀ (by norm_num : (2 : ℚ) ≠ 0)]
      norm_num
    have h1 : ((2 ^ 52 : ℤ) : ℚ) ≤ x / (2 : ℚ) ^ (binExp x - 52) := by
      rw [le_div_iff₀ hu, ← h52]; exact b1
    have h2 : ((2 ^ 52 : ℤ) : ℚ) ≤ (roundNE (x / (2 : ℚ) ^ (binExp x - 52)) : ℚ) := by
      exact_mod_cast le_roundNE _ _ h1
    have h3 := mul_le_mul_of_nonneg_right h2 (le_of_lt hu)
    rw [← h52] at h3
    linarith

theorem truncInt_of_nonneg (x : ℚ) (h : 0 ≤ x) : truncInt x = ⌊x⌋ := by
  unfold truncInt
  rw [Rat.floor_def]
  exact Int.tdiv_eq_ediv (Rat.num_nonneg.mpr h) (by exact_mod_cast Nat.zero_le _)

theorem truncInt_nonpos (x : ℚ) (h : x ≤ 0) : truncInt x ≤ 0 := by
  unfold truncInt
  have h1 : x.num ≤ 0 := Rat.num_nonpos.mpr h
  have h2 : 0 ≤ (-x.num).tdiv x.den := Int.tdiv_nonneg (by omega) (by exact_mod_cast Nat.zero_le _)
  rw [Int.neg_tdiv] at h2
  omega

/-- Rounding keeps a value of the unit interval below one. -/
theorem f64_unit (x : ℚ) (h0 : 0 ≤ x) (h1 : x ≤ ((2 ^ 53 - 1 : ℤ) : ℚ) * (2 : ℚ) ^ (-53 : ℤ)) :
    0 ≤ f64 x ∧ f64 x ≤ ((2 ^ 53 - 1 : ℤ) : ℚ) * (2 : ℚ) ^ (-53 : ℤ) := by
  refine ⟨f64_nonneg x h0, ?_⟩
  rcases eq_or_lt_of_le h0 with h | h
  · rw [← h]
    norm_num [f64]
  · exact f64_le_dyadic x _ _ h (by norm_num) h1

/-! ## Whole minutes of a duration -/

theorem tdiv_tmod_of_nonpos (a b : Int) (ha : a ≤ 0) (hb : 0 < b) :
    Int.tdiv a b ≤ 0 ∧ Int.tmod a b ≤ 0 := by
  have h1 : 0 ≤ (-a).tdiv b := Int.tdiv_nonneg (by omega) (by omega)
  have h2 : 0 ≤ (-a).tmod b := Int.tmod_nonneg b (by omega)
  have h3 := Int.tmod_add_tdiv a b
  have h4 := Int.tmod_add_tdiv (-a) b
  rw [Int.neg_tdiv] at h1 h4
  constructor
  · omega
  · have h5 : b * -(a.tdiv b) = -(b * a.tdiv b) := by ring
    rw [h5] at h4
    omega

theorem wholeMinutes_of_ge (d : Int) (h : Minute ≤ d) : 1 ≤ wholeMinutes d := by
  have hM : Minute = 60000000000 := by decide
  rw [hM] at h
  have hd : Int.tdiv d 60000000000 = d / 60000000000 := Int.tdiv_eq_ediv (by omega) (by omega)
  have hr : Int.tmod d 60000000000 = d % 60000000000 := Int.tmod_eq_emod (by omega) (by omega)
  have hmin : (1 : ℤ) ≤ d / 60000000000 := by omega
  have hnsec : (0 : ℤ) ≤ d % 60000000000 := by omega
  have hminq : ((1 : ℤ) : ℚ) * (2 : ℚ) ^ (0 : ℤ) ≤ ((d / 60000000000 : ℤ) : ℚ) := by
    simpa using (by exact_mod_cast hmin : (1 : ℚ) ≤ ((d / 60000000000 : ℤ) : ℚ))
  have hA := dyadic_le_f64 _ 1 0 (by
    have : (0 : ℚ) < ((d / 60000000000 : ℤ) : ℚ) := by exact_mod_cast (by omega : 0 < d / 60000000000)
    exact this) (by norm_num) hminq
  have hB := f64_nonneg ((d % 60000000000 : ℤ) : ℚ) (by exact_mod_cast hnsec)
  have hC := f64_nonneg (f64 ((d % 60000000000 : ℤ) : ℚ) / 60000000000)
    (div_nonneg hB (by norm_num))
  have hS : ((1 : ℤ) : ℚ) * (2 : ℚ) ^ (0 : ℤ) ≤
      f64 ((d / 60000000000 : ℤ) : ℚ) + f64 (f64 ((d % 60000000000 : ℤ) : ℚ) / 60000000000) := by
    linarith
  have hF := dyadic_le_f64 _ 1 0 (by simp at hS; linarith) (by norm_num) hS
  unfold wholeMinutes Duration.Minutes
  simp only [hM, hd, hr]
  rw [truncInt_of_nonneg _ (by simp at hF; linarith)]
  apply Int.le_floor.mpr
  simpa using hF

theorem wholeMinutes_of_lt (d : Int) (h0 : 0 ≤ d) (h : d < Minute) : wholeMinutes d = 0 := by
  have hM : Minute = 60000000000 := by decide
  rw [hM] at h
  have hd : Int.tdiv d 60000000000 = 0 := by
    rw [Int.tdiv_eq_ediv (by omega) (by omega)]
    omega
  have hr : Int.tmod d 60000000000 = d := by
    rw [Int.tmod_eq_emod (by omega) (by omega)]
    omega
  have hB0 := f64_nonneg (d : ℚ) (by exact_mod_cast h0)
  have hB1 : f64 (d : ℚ) ≤ ((59999999999 : ℤ) : ℚ) * (2 : ℚ) ^ (0 : ℤ) := by
    rcases eq_or_lt_of_le h0 with h | h'
    · rw [← h]
      norm_num [f64]
    · apply f64_le_dyadic _ _ _ (by exact_mod_cast h') (by norm_num)
      have : (d : ℚ) ≤ ((59999999999 : ℤ) : ℚ) := by exact_mod_cast (by omega : d ≤ 59999999999)
      simpa using this
  have hq : f64 (d : ℚ) / 60000000000 ≤ ((2 ^ 53 - 1 : ℤ) : ℚ) * (2 : ℚ) ^ (-53 : ℤ) := by
    rw [div_le_iff₀ (by norm_num)]
    norm_num at hB1 ⊢
    linarith
  obtain ⟨hC0, hC1⟩ := f64_unit _ (div_nonneg hB0 (by norm_num)) hq
  obtain ⟨hS0, hS1⟩ := f64_unit _ hC0 hC1
  have hz : f64 ((0 : ℤ) : ℚ) = 0 := by norm_num [f64]
  unfold wholeMinutes Duration.Minutes
  simp only [hM, hd, hr, hz, zero_add]
  rw [truncInt_of_nonneg _ hS0]
  rw [Int.floor_eq_zero_iff]
  refine ⟨hS0, ?_⟩
  norm_num at hS1 ⊢
  linarith

theorem wholeMinutes_of_neg (d : Int) (h : d < 0) : wholeMinutes d ≤ 0 := by
  have hM : Minute = 60000000000 := by decide
  obtain ⟨h1, h2⟩ := tdiv_tmod_of_nonpos d 60000000000 (by omega) (by omega)
  have hA := f64_nonpos ((Int.tdiv d 60000000000 : ℤ) : ℚ) (by exact_mod_cast h1)
  have hB := f64_nonpos ((Int.tmod d 60000000000 : ℤ) : ℚ) (by exact_mod_cast h2)
  have hC := f64_nonpos (f64 ((Int.tmod d 60000000000 : ℤ) : ℚ) / 60000000000)
    (div_nonpos_of_nonpos_of_nonneg hB (by norm_num))
  unfold wholeMinutes Duration.Minutes
  simp only [hM]
  exact truncInt_nonpos _ (f64_nonpos _ (by linarith))

/-! ## The branches of DurationToMSU -/

theorem DurationToMSU_of_selected (numeral : Int → String) (d v : Int) (u : TimeUnit)
    (h : selectedUnit d = some (v, u)) :
    DurationToMSU numeral d = fmtDurationInAR numeral v u ∧ 1 ≤ v ∧
      (u = DAY ∨ u = HOUR ∨ u = MINUTE) := by
  unfold selectedUnit at h
  unfold DurationToMSU
  simp only at h ⊢
  have e1 : (60 : Int) * 24 = 1440 := by norm_num
  rw [e1] at h ⊢
  split_ifs at h ⊢ with h1 h2 h3
  all_goals
    simp only [Option.some.injEq, Prod.mk.injEq] at h
    obtain ⟨hv, hu⟩ := h
    subst hv hu
    refine ⟨rfl, by omega, by simp⟩

theorem DurationToMSU_of_none (numeral : Int → String) (d : Int) (h : selectedUnit d = none) :
    DurationToMSU numeral d = "" := by
  unfold selectedUnit at h
  unfold DurationToMSU
  simp only at h ⊢
  have e1 : (60 : Int) * 24 = 1440 := by norm_num
  rw [e1] at h ⊢
  split_ifs at h ⊢
  rfl

theorem selectedUnit_eq_none_iff (d : Int) : selectedUnit d = none ↔ wholeMinutes d ≤ 0 := by
  unfold selectedUnit
  simp only
  have e1 : (60 : Int) * 24 = 1440 := by norm_num
  rw [e1]
  constructor
  · intro h
    by_contra hc
    have hm : 0 ≤ wholeMinutes d := by omega
    have a1 : Int.tdiv (wholeMinutes d) 1440 = wholeMinutes d / 1440 :=
      Int.tdiv_eq_ediv hm (by omega)
    have a2 : Int.tmod (wholeMinutes d) 1440 = wholeMinutes d % 1440 :=
      Int.tmod_eq_emod hm (by omega)
    have a3 : Int.tmod (wholeMinutes d) 60 = wholeMinutes d % 60 :=
      Int.tmod_eq_emod hm (by omega)
    have a4 : Int.tdiv (wholeMinutes d % 1440) 60 = wholeMinutes d % 1440 / 60 :=
      Int.tdiv_eq_ediv (by omega) (by omega)
    rw [a1, a2, a3, a4] at h
    split_ifs at h
    omega
  · intro h
    obtain ⟨b1, b2⟩ := tdiv_tmod_of_nonpos (wholeMinutes d) 1440 h (by omega)
    obtain ⟨b3, -⟩ := tdiv_tmod_of_nonpos (Int.tmod (wholeMinutes d) 1440) 60 b2 (by omega)
    obtain ⟨-, b4⟩ := tdiv_tmod_of_nonpos (wholeMinutes d) 60 h (by omega)
    rw [if_neg (by omega), if_neg (by omega), if_neg (by omega)]

theorem append_ne_empty (a b : String) (hb : b ≠ "") : a ++ b ≠ "" := by
  intro h
  have h1 := congrArg String.length h
  rw [String.length_append] at h1
  have h2 : b.length ≠ 0 := by
    intro h0
    apply hb
    exact String.ext (List.length_eq_zero.mp h0)
  simp at h1
  omega

theorem unit_ne : HOUR ≠ DAY ∧ MINUTE ≠ DAY ∧ MINUTE ≠ HOUR := by decide

theorem fmtDurationInAR_ne_empty (numeral : Int → String) (v : Int) (u : TimeUnit)
    (hu : u = DAY ∨ u = HOUR ∨ u = MINUTE) : fmtDurationInAR numeral v u ≠ "" := by
  obtain ⟨n1, n2, n3⟩ := unit_ne
  unfold fmtDurationInAR
  rcases hu with h | h | h <;> subst h <;>
    simp only [n1, n2, n3, if_false, if_true] <;> split_ifs <;>
    first
      | exact append_ne_empty _ _ (by decide)
      | decide

/-- Rebuilding an instant from the civil date of a day number, shifted by `inc`
days, at a clock reading within the day. -/
theorem goDate_absDate_clock (n inc hh mi ss ns : Int) (loc : Location)
    (h1 : 0 ≤ hh ∧ hh < 24) (h2 : 0 ≤ mi ∧ mi < 60) (h3 : 0 ≤ ss ∧ ss < 60)
    (h4 : 0 ≤ ns ∧ ns < 1000000000) :
    goDate (absDate n).1 (absDate n).2.1 ((absDate n).2.2 + inc) hh mi ss ns loc =
      { unixNano := ((n + inc - unixEpochDays) * secondsPerDay +
          (hh * secondsPerHour + mi * secondsPerMinute + ss) - loc.offset) * 1000000000 + ns,
        loc := loc } := by
  obtain ⟨hs, h0, h1', hl⟩ := yearDay_spec n
  obtain ⟨hm, hd⟩ := monthDay_spec (isLeap (yearDay n).1) (yearDay n).2 h0 h1' hl
  simp only [absDate] at *
  simp only [goDate]
  rw [norm_id _ _ 12 (by omega) (by omega), norm_id ss ns 1000000000 h4.1 h4.2]
  dsimp only
  rw [norm_id mi ss 60 h3.1 h3.2]
  dsimp only
  rw [norm_id hh mi 60 h2.1 h2.2]
  dsimp only
  rw [norm_id _ hh 24 h1.1 h1.2]
  simp only [sub_add_cancel]
  congr 1
  simp only [secondsPerDay, unixEpochDays, secondsPerHour, secondsPerMinute] at *
  split_ifs at hd ⊢ <;> omega

theorem clock_bounds (t : Time) :
    (0 ≤ t.Clock.1 ∧ t.Clock.1 < 24) ∧ (0 ≤ t.Clock.2.1 ∧ t.Clock.2.1 < 60) ∧
      (0 ≤ t.Clock.2.2 ∧ t.Clock.2.2 < 60) ∧
      t.Clock.1 * secondsPerHour + t.Clock.2.1 * secondsPerMinute + t.Clock.2.2 =
        t.localSec % secondsPerDay := by
  simp only [Time.Clock, secondsPerDay, secondsPerHour, secondsPerMinute]
  omega

theorem nanosecond_bounds (t : Time) : 0 ≤ t.Nanosecond ∧ t.Nanosecond < 1000000000 := by
  simp only [Time.Nanosecond]
  omega

theorem absDays_eq (t : Time) : t.absDays = t.localSec / secondsPerDay + unixEpochDays := rfl

/-- Adding whole days keeps the clock reading and moves the day number. -/
theorem addDate_days (t : Time) (days : Int) :
    Time.AddDate t 0 0 days =
      { unixNano := t.unixNano + days * (secondsPerDay * 1000000000), loc := t.loc } := by
  obtain ⟨c1, c2, c3, c4⟩ := clock_bounds t
  have hn := nanosecond_bounds t
  simp only [Time.AddDate, Time.Date, add_zero, Time.Location]
  rw [goDate_absDate_clock _ _ _ _ _ _ _ c1 c2 c3 hn, c4]
  congr 1
  simp only [Time.absDays, Time.localSec, Time.Nanosecond, secondsPerDay, unixEpochDays]
  omega

/-- The day number of an instant at local midnight of day `n`. -/
theorem absDays_midnight (n : Int) (loc : Location) :
    Time.absDays { unixNano := ((n - unixEpochDays) * secondsPerDay - loc.offset) * 1000000000,
                   loc := loc } = n := by
  simp only [Time.absDays, secondsPerDay, unixEpochDays]
  omega

theorem absDays_add_days (t : Time) (days : Int) :
    Time.absDays { unixNano := t.unixNano + days * (secondsPerDay * 1000000000), loc := t.loc } =
      t.absDays + days := by
  simp only [Time.absDays, secondsPerDay, unixEpochDays]
  omega

theorem clock_midnight (n : Int) (loc : Location) :
    Time.Clock { unixNano := ((n - unixEpochDays) * secondsPerDay - loc.offset) * 1000000000,
                 loc := loc } = (0, 0, 0) ∧
      Time.Nanosecond { unixNano := ((n - unixEpochDays) * secondsPerDay - loc.offset) * 1000000000,
                        loc := loc } = 0 := by
  simp only [Time.Clock, Time.localSec, Time.Nanosecond, secondsPerDay, unixEpochDays,
    secondsPerHour, secondsPerMinute, Prod.mk.injEq]
  omega

/-! ## Day and week starts of a HjriDate -/

theorem dayTime_t (h : HjriDate) (inc : Int) :
    (h.dayTime inc).t =
      { unixNano := ((h.t.absDays + inc - unixEpochDays) * secondsPerDay - h.t.loc.offset) *
          1000000000,
        loc := h.t.loc } := by
  simp only [HjriDate.dayTime, Time.Date, Time.Location, goDate_absDate]

theorem weekStartingDay_t (lib : HijriLib) (h : HjriDate) :
    (HjriDate.WeekStartingDay lib h).t =
      { unixNano := ((h.t.absDays - h.t.Weekday - unixEpochDays) * secondsPerDay -
          h.t.loc.offset) * 1000000000,
        loc := h.t.loc } := by
  have h0 := goDate_absDate (h.t.absDays + -h.t.Weekday) 0 h.t.loc
  simp only [add_zero] at h0
  simp only [HjriDate.WeekStartingDay, addDate_days, Time.Year, Time.Month, Time.Day, Time.Date,
    Time.Location, absDays_add_days, h0]
  congr 1

theorem weekday_bounds (t : Time) : 0 ≤ t.Weekday ∧ t.Weekday ≤ 6 := by
  simp only [Time.Weekday]
  omega

theorem toUint_lt (v : Int) : toUint v < 2 ^ 64 := by
  unfold toUint
  omega

theorem toInt64_toUint_toInt64 (v : Nat) : toInt64 (toUint (toInt64 v)) = toInt64 v := by
  rw [toUint_toInt64]
  unfold toInt64
  simp only [Nat.mod_mod]

/-- The toy library is a function of the instant. -/
theorem toyLib_instant_only (a b : Time) (h : a.unixNano = b.unixNano) :
    toyLib.CreateUmmAlQuraDate a = toyLib.CreateUmmAlQuraDate b := by
  simp only [toyLib, Time.absDays, Time.UTC, h]

/-- The toy library round-trips on every date of its calendar. -/
theorem toyLib_round_trip (u : UmmAlQuraDate)
    (hm : 1 ≤ u.Month ∧ u.Month ≤ 12) (hd : 1 ≤ u.Day ∧ u.Day ≤ 30) :
    (toyLib.CreateUmmAlQuraDate (toyLib.ToGregorian u)).Year = u.Year ∧
      (toyLib.CreateUmmAlQuraDate (toyLib.ToGregorian u)).Month = u.Month ∧
      (toyLib.CreateUmmAlQuraDate (toyLib.ToGregorian u)).Day = u.Day := by
  have h := absDays_midnight (toyDayNumber u) utcLoc
  simp only [toyLib, Time.UTC]
  rw [h]
  simp only [toyDate, toyDayNumber]
  omega

theorem tdiv_tmod_bounds (a b : Int) (hb : 0 < b) :
    Int.tmod a b < b ∧ (0 < Int.tmod a b → 0 < a) ∧ (0 < Int.tdiv a b → 0 < a) := by
  by_cases ha : 0 ≤ a
  · rw [Int.tmod_eq_emod ha (by omega), Int.tdiv_eq_ediv ha (by omega)]
    refine ⟨Int.emod_lt_of_pos a hb, ?_, ?_⟩
    · intro h
      by_contra hc
      have : a = 0 := by omega
      subst this
      simp at h
    · intro h
      by_contra hc
      have : a = 0 := by omega
      subst this
      simp at h
  · obtain ⟨h1, h2⟩ := tdiv_tmod_of_nonpos a b (by omega) hb
    exact ⟨by omega, by omega, by omega⟩

/-- The day count of `daysSinceEpoch` in closed form. -/
theorem daysSinceEpoch_closed (y : Int) :
    daysSinceEpoch y = 365 * (y - 1) + (y - 1) / 4 - (y - 1) / 100 + (y - 1) / 400 := by
  simp only [daysSinceEpoch, daysPer400Years, daysPer100Years, daysPer4Years]
  omega

theorem isLeap_iff (y : Int) :
    isLeap y = true ↔ y % 4 = 0 ∧ (y % 100 ≠ 0 ∨ y % 400 = 0) := by
  simp [isLeap]

/-- The first day of the next year. -/
theorem daysSinceEpoch_succ (y : Int) :
    daysSinceEpoch (y + 1) = daysSinceEpoch y + 365 + (if isLeap y then 1 else 0) := by
  rw [daysSinceEpoch_closed, daysSinceEpoch_closed]
  split_ifs with h
  · rw [isLeap_iff] at h
    omega
  · rw [isLeap_iff] at h
    omega

theorem daysSinceEpoch_mono (a b : Int) (h : a ≤ b) : daysSinceEpoch a ≤ daysSinceEpoch b := by
  rw [daysSinceEpoch_closed, daysSinceEpoch_closed]
  omega

/-- A day number splits into a year and a day of that year in one way only. -/
theorem yearDay_unique (n y k : Int) (h : daysSinceEpoch y + k = n) (h0 : 0 ≤ k)
    (h1 : k ≤ 364 + (if isLeap y then 1 else 0)) : yearDay n = (y, k) := by
  obtain ⟨s1, s2, s3, s4⟩ := yearDay_spec n
  have hk : (yearDay n).2 ≤ 364 + (if isLeap (yearDay n).1 then 1 else 0) := by
    split_ifs with hl
    · omega
    · have : (yearDay n).2 ≠ 365 := fun h365 => hl (s4 h365)
      omega
  have hy : (yearDay n).1 = y := by
    rcases lt_trichotomy (yearDay n).1 y with hlt | heq | hgt
    · exfalso
      have m1 := daysSinceEpoch_mono ((yearDay n).1 + 1) y (by omega)
      have m2 := daysSinceEpoch_succ (yearDay n).1
      omega
    · exact heq
    · exfalso
      have m1 := daysSinceEpoch_mono (y + 1) (yearDay n).1 (by omega)
      have m2 := daysSinceEpoch_succ y
      omega
  have hk2 : (yearDay n).2 = k := by
    rw [hy] at s1
    omega
  exact Prod.ext hy hk2

theorem monthDay_first_fin : ∀ (b : Bool) (m : Fin 13), 1 ≤ (m : Nat) →
    monthDay b (daysBefore ((m : Nat) - 1) +
      (if b && decide (((m : Nat) : Int) ≥ 3) then 1 else 0)) = (((m : Nat) : Int), 1) := by
  decide!

theorem monthDay_first (b : Bool) (m : Int) (hm : 1 ≤ m ∧ m ≤ 12) :
    monthDay b (daysBefore (m - 1) + (if b && decide (m ≥ 3) then 1 else 0)) = (m, 1) ∧
      0 ≤ daysBefore (m - 1) + (if b && decide (m ≥ 3) then 1 else 0) ∧
      daysBefore (m - 1) + (if b && decide (m ≥ 3) then 1 else 0) ≤ 335 := by
  have hk : m.toNat < 13 := by omega
  have hmm : ((m.toNat : Nat) : Int) = m := Int.toNat_of_nonneg (by omega)
  have key := monthDay_first_fin b ⟨m.toNat, hk⟩ (by simp; omega)
  simp only [hmm] at key
  refine ⟨key, ?_, ?_⟩
  · have : 0 ≤ daysBefore (m - 1) := by
      obtain ⟨h1, h2⟩ := hm
      interval_cases m <;> decide
    split_ifs <;> omega
  · have : daysBefore (m - 1) ≤ 334 := by
      obtain ⟨h1, h2⟩ := hm
      interval_cases m <;> decide
    split_ifs <;> omega

/-- The instant of local midnight of a civil date whose month is in 1..12. -/
theorem goDate_civil (y m d : Int) (loc : Location) (hm : 1 ≤ m ∧ m ≤ 12) :
    goDate y m d 0 0 0 0 loc =
      { unixNano := ((daysSinceEpoch y + daysBefore (m - 1) +
            (if isLeap y && decide (m ≥ 3) then 1 else 0) + (d - 1) - unixEpochDays) *
          secondsPerDay - loc.offset) * 1000000000,
        loc := loc } := by
  simp only [goDate]
  rw [norm_id _ _ 12 (by omega) (by omega), norm_id 0 0 1000000000 (by omega) (by omega)]
  dsimp only
  rw [norm_id 0 0 60 (by omega) (by omega)]
  dsimp only
  rw [norm_id 0 0 60 (by omega) (by omega)]
  dsimp only
  rw [norm_id _ 0 24 (by omega) (by omega)]
  simp only [sub_add_cancel]
  congr 1
  simp only [secondsPerDay, unixEpochDays, secondsPerHour, secondsPerMinute]
  split_ifs <;> omega

/-- The civil date of the day number of the first day of a month. -/
theorem absDate_first (y m : Int) (hm : 1 ≤ m ∧ m ≤ 12) :
    absDate (daysSinceEpoch y + daysBefore (m - 1) +
      (if isLeap y && decide (m ≥ 3) then 1 else 0) + (1 - 1)) = (y, m, 1) := by
  obtain ⟨f1, f2, f3⟩ := monthDay_first (isLeap y) m hm
  have hu := yearDay_unique
    (daysSinceEpoch y + daysBefore (m - 1) + (if isLeap y && decide (m ≥ 3) then 1 else 0) +
      (1 - 1)) y
    (daysBefore (m - 1) + (if isLeap y && decide (m ≥ 3) then 1 else 0)) (by omega) f2
    (by split_ifs <;> omega)
  simp only [absDate, hu, f1]

/-- The civil date of the first day of the month of a day number. -/
theorem date_first_of_month (n : Int) (loc : Location) :
    (goDate (absDate n).1 (absDate n).2.1 1 0 0 0 0 loc).Date =
      ((absDate n).1, (absDate n).2.1, 1) := by
  obtain ⟨hs, h0, h1, hl⟩ := yearDay_spec n
  obtain ⟨hm, -⟩ := monthDay_spec (isLeap (yearDay n).1) (yearDay n).2 h0 h1 hl
  have hm2 : 1 ≤ (absDate n).2.1 ∧ (absDate n).2.1 ≤ 12 := hm
  rw [goDate_civil _ _ _ _ hm2]
  simp only [Time.Date]
  rw [absDays_midnight]
  exact absDate_first _ _ hm2

/-! ## The claims -/

/-- C1, counterexample.  At 21:00:00 UTC on 1 January 1970, which is midnight
in KSA time, `KSATimeOf(x).DayContains(x)` is false. -/
theorem C1_dayContains_self_fails :
    KSATime.DayContains (KSATimeOf ⟨75600000000000, utcLoc⟩) ⟨75600000000000, utcLoc⟩ = false := by
  decide

/-- C1, amended.  For every instant `x`, `KSATimeOf(x).DayContains(x)` is true
exactly when `x` is not a KSA midnight, that is when `x + 3h` is not a whole
number of days from the epoch. -/
theorem C1_dayContains_self_iff (x : Time) :
    KSATime.DayContains (KSATimeOf x) x = true ↔
      (x.unixNano + 3 * Hour) % (24 * Hour) ≠ 0 := by
  obtain ⟨h1, h2, -, h4⟩ := ksaDay_bounds x
  simp only [KSATime.DayContains, Time.After, Time.Before, Time.UTC, Bool.and_eq_true,
    decide_eq_true_eq, Hour, Minute, Second]
  omega

/-- C2, the code at the failing input.  For a date in month 11 (here
15 Dhu al-Qadah 1445) `NextMonthStart` returns month 0, where
`(11 % 12) + 1` is 12; the year is unchanged. -/
theorem C2_nextMonthStart_month_eleven (lib : HijriLib) (wd : Int) (t : Time) :
    (HjriDate.NextMonthStart lib
        { year := 1445, month := 11, day := 15, weekday := wd, t := t }).month = 0 ∧
      (HjriDate.NextMonthStart lib
        { year := 1445, month := 11, day := 15, weekday := wd, t := t }).year = 1445 ∧
      (11 % 12) + 1 = 12 := by
  simp [HjriDate.NextMonthStart, toUint_toInt64, uintAdd]

/-- C3.  For every HjriDate `h` whose month is in 1..12, `h.NextMonthStart()`
has day 1 and has year `h.year + 1` if `h.month` is 12 and `h.year` otherwise.
The sum is a `uint` sum; it is the successor of `h.year` unless `h.year` is the
largest `uint`. -/
theorem C3_nextMonthStart_year_day (lib : HijriLib) (h : HjriDate)
    (hy : h.year < 2 ^ 64) (hm : 1 ≤ h.month ∧ h.month ≤ 12) :
    (HjriDate.NextMonthStart lib h).day = 1 ∧
      (HjriDate.NextMonthStart lib h).year =
        (if h.month = 12 then uintAdd h.year 1 else h.year) ∧
      (h.year + 1 < 2 ^ 64 →
        (HjriDate.NextMonthStart lib h).year = (if h.month = 12 then h.year + 1 else h.year)) := by
  have hnm : uintAdd h.month 1 % 12 = 1 ↔ h.month = 12 := by
    have h1 : (h.month + 1) % 2 ^ 64 = h.month + 1 := Nat.mod_eq_of_lt (by omega)
    rw [uintAdd, h1]
    omega
  have hyear : (HjriDate.NextMonthStart lib h).year =
      (if h.month = 12 then uintAdd h.year 1 else h.year) := by
    simp only [HjriDate.NextMonthStart, toUint_toInt64, hnm]
    split_ifs
    · unfold uintAdd
      omega
    · omega
  refine ⟨?_, hyear, ?_⟩
  · simp only [HjriDate.NextMonthStart, toUint]
    decide
  · intro hlt
    rw [hyear]
    split_ifs
    · unfold uintAdd
      omega
    · rfl

/-- C3, witness: the last month of 1445 is followed by day 1 of year 1446. -/
theorem C3_nextMonthStart_year_day_witness :
    (HjriDate.NextMonthStart ⟨fun _ => ⟨1, 1, 1446, 0⟩, fun _ => ⟨0, utcLoc⟩⟩
        { year := 1445, month := 12, day := 29, weekday := 5, t := ⟨0, riyadhLoc⟩ }).day = 1 ∧
      (HjriDate.NextMonthStart ⟨fun _ => ⟨1, 1, 1446, 0⟩, fun _ => ⟨0, utcLoc⟩⟩
        { year := 1445, month := 12, day := 29, weekday := 5, t := ⟨0, riyadhLoc⟩ }).year = 1446 :=
  have h := C3_nextMonthStart_year_day ⟨fun _ => ⟨1, 1, 1446, 0⟩, fun _ => ⟨0, utcLoc⟩⟩
    { year := 1445, month := 12, day := 29, weekday := 5, t := ⟨0, riyadhLoc⟩ }
    (by decide) (by decide)
  ⟨h.1, h.2.2 (by decide)⟩

/-- C4.  For every KSATime `t`, whatever instant and zone it wraps,
`t.NextDayStartInUTC()` minus `t.CurrentDayStartInUTC()` is exactly 24 hours. -/
theorem C4_day_length (t : KSATime) :
    (KSATime.NextDayStartInUTC t).Sub (KSATime.CurrentDayStartInUTC t) = 24 * Hour := by
  simp only [Time.Sub, KSATime.CurrentDayStartInUTC, KSATime.NextDayStartInUTC,
    ksaDayInUTC_unixNano, Hour, Minute, Second]
  omega

/-- C5.  For every instant `x`, `KSATimeOf(x).DayContains` is false at
`x + 24h` and at `x - 24h`. -/
theorem C5_dayContains_shifted (x : Time) :
    KSATime.DayContains (KSATimeOf x) (x.Add (24 * Hour)) = false ∧
      KSATime.DayContains (KSATimeOf x) (x.Add (-(24 * Hour))) = false := by
  obtain ⟨h1, h2, h3, -⟩ := ksaDay_bounds x
  simp only [KSATime.DayContains, Time.After, Time.Before, Time.UTC, Time.Add,
    Bool.and_eq_false_eq_eq_false_or_eq_false, decide_eq_false_iff_not, Hour, Minute, Second]
  constructor
  · right
    omega
  · left
    omega

/-- C6.  Both containment predicates are strict.  `t.DayContains(y)` holds
exactly when `y` is strictly between `t.CurrentDayStartInUTC()` and
`t.NextDayStartInUTC()`; `h.DayContains(y)` holds exactly when `y` is strictly
between `h.CurrentDayStart().Gregorian()` and `h.NextDayStart().Gregorian()`;
each predicate is false at both of its own boundary instants. -/
theorem C6_dayContains_strict (t : KSATime) (h : HjriDate) (y : Time) :
    (KSATime.DayContains t y = true ↔
        (KSATime.CurrentDayStartInUTC t).unixNano < y.unixNano ∧
          y.unixNano < (KSATime.NextDayStartInUTC t).unixNano) ∧
      (HjriDate.DayContains h y = true ↔
        h.CurrentDayStart.Gregorian.unixNano < y.unixNano ∧
          y.unixNano < h.NextDayStart.Gregorian.unixNano) ∧
      KSATime.DayContains t (KSATime.CurrentDayStartInUTC t) = false ∧
      KSATime.DayContains t (KSATime.NextDayStartInUTC t) = false ∧
      HjriDate.DayContains h h.CurrentDayStart.Gregorian = false ∧
      HjriDate.DayContains h h.NextDayStart.Gregorian = false := by
  simp [KSATime.DayContains, HjriDate.DayContains, HjriDate.Gregorian, Time.After,
    Time.Before, Time.UTC]

/-- C7, the code at the failing input.  A duration of 263519 minutes and
59.999999999 seconds, one nanosecond short of 183 days, truncates to 263519
whole minutes, that is 182 whole days; `d.Minutes()` rounds it to 263520.0, so
`DurationToMSU` renders 183 days. -/
theorem C7_minutes_rounded_up (numeral : Int → String) :
    Int.tdiv 15811199999999999 Minute = 263519 ∧
      Int.tdiv 263519 (60 * 24) = 182 ∧
      wholeMinutes 15811199999999999 = 263520 ∧
      DurationToMSU numeral 15811199999999999 = numeral 183 ++ " " ++ "يوما" ∧
      DurationToMSU arabicNumeral 15811199999999999 = "١٨٣ يوما" ∧
      fmtDurationInAR arabicNumeral 182 DAY = "١٨٢ يوما" := by
  have hw : wholeMinutes 15811199999999999 = 263520 := by decide!
  have hs : selectedUnit 15811199999999999 = some (183, DAY) := by
    unfold selectedUnit
    rw [hw]
    decide
  refine ⟨by decide, by decide, hw, ?_, by decide!, by decide!⟩
  rw [(DurationToMSU_of_selected numeral _ _ _ hs).1]
  unfold fmtDurationInAR
  simp [DAY]

/-- C8.  `DurationToMSU(d)` is the empty string if and only if `d` is less
than one whole minute; so it is empty for a zero and for every negative
duration, and it is not empty from one minute on. -/
theorem C8_empty_iff (numeral : Int → String) (d : Int) :
    DurationToMSU numeral d = "" ↔ d < Minute := by
  constructor
  · intro h
    by_contra hc
    have hm := wholeMinutes_of_ge d (by omega)
    cases hsel : selectedUnit d with
    | none =>
      have := (selectedUnit_eq_none_iff d).mp hsel
      omega
    | some vu =>
      obtain ⟨v, u⟩ := vu
      obtain ⟨e1, -, e3⟩ := DurationToMSU_of_selected numeral d v u hsel
      rw [e1] at h
      exact fmtDurationInAR_ne_empty numeral v u e3 h
  · intro h
    apply DurationToMSU_of_none
    rw [selectedUnit_eq_none_iff]
    by_cases h0 : 0 ≤ d
    · rw [wholeMinutes_of_lt d h0 h]
    · exact wholeMinutes_of_neg d (by omega)

/-- C9.  When the selected unit value is 1 or 2, `DurationToMSU` returns a
fixed word and no numeral: for 1 the words for one day, one hour, one minute;
for 2 the words for two days, two hours, two minutes. -/
theorem C9_fixed_words (numeral : Int → String) (d v : Int) (u : TimeUnit)
    (hsel : selectedUnit d = some (v, u)) (hv : v = 1 ∨ v = 2) :
    DurationToMSU numeral d =
      (if v = 1 then
        (if u = DAY then "يوم" else if u = HOUR then "ساعة" else "دقيقة")
      else
        (if u = DAY then "يومان" else if u = HOUR then "ساعات" else "دقيقتان")) := by
  obtain ⟨e1, -, e3⟩ := DurationToMSU_of_selected numeral d v u hsel
  rw [e1]
  unfold fmtDurationInAR
  rcases hv with h | h <;> subst h <;> rcases e3 with h | h | h <;> subst h <;>
    simp [DAY, HOUR, MINUTE]

/-- C9, witness: exactly one minute gives the word for one minute, and exactly
two hours give the word the code has for two hours. -/
theorem C9_fixed_words_witness :
    selectedUnit Minute = some (1, MINUTE) ∧
      DurationToMSU arabicNumeral Minute = "دقيقة" ∧
      selectedUnit (2 * Hour) = some (2, HOUR) ∧
      DurationToMSU arabicNumeral (2 * Hour) = "ساعات" :=
  ⟨by decide!,
    (C9_fixed_words arabicNumeral Minute 1 MINUTE (by decide!) (by decide)).trans (by decide),
    by decide!,
    (C9_fixed_words arabicNumeral (2 * Hour) 2 HOUR (by decide!) (by decide)).trans (by decide)⟩

/-- C10, counterexample.  With the Arabic-Indic digits of the Arabic printer,
five days give the numeral in the glyph for 5 and not the ASCII digit, and 45
minutes give the glyphs for 4 and 5. -/
theorem C10_ascii_examples_fail :
    DurationToMSU arabicNumeral (5 * (24 * Hour)) = "٥ أيام" ∧
      DurationToMSU arabicNumeral (5 * (24 * Hour)) ≠ "5 أيام" ∧
      DurationToMSU arabicNumeral (45 * Minute) = "٤٥ دقيقة" ∧
      DurationToMSU arabicNumeral (45 * Minute) ≠ "45 دقيقة" := by
  decide!

/-- C10, amended.  When the selected unit value `v` is at least 3,
`DurationToMSU` returns the numeral of `v` as the printer renders it, one space
and a unit word: the plural word for `v` up to 10 and the singular accusative
word from 11 on.  With the Arabic-Indic digits of the Arabic printer, five days
and 45 minutes give the two strings stated. -/
theorem C10_numeral_and_word (numeral : Int → String) (d v : Int) (u : TimeUnit)
    (hsel : selectedUnit d = some (v, u)) (hv : 3 ≤ v) :
    DurationToMSU numeral d =
        numeral v ++ " " ++
          (if v ≤ 10 then
            (if u = DAY then "أيام" else if u = HOUR then "ساعات" else "دقائق")
          else
            (if u = DAY then "يوما" else if u = HOUR then "ساعة" else "دقيقة")) ∧
      DurationToMSU arabicNumeral (5 * (24 * Hour)) = "٥ أيام" ∧
      DurationToMSU arabicNumeral (45 * Minute) = "٤٥ دقيقة" := by
  refine ⟨?_, by decide!, by decide!⟩
  obtain ⟨e1, -, e3⟩ := DurationToMSU_of_selected numeral d v u hsel
  rw [e1]
  unfold fmtDurationInAR
  rw [if_neg (by omega), if_neg (by omega)]
  by_cases h10 : v ≤ 10
  · rw [if_pos ⟨hv, h10⟩, if_pos h10]
    rcases e3 with h | h | h <;> subst h <;> simp [DAY, HOUR, MINUTE]
  · rw [if_neg (by omega), if_neg h10]
    rcases e3 with h | h | h <;> subst h <;> simp [DAY, HOUR, MINUTE]

/-- C10, witness: seven hours select the value 7 of the hour unit and give the
numeral 7 and the plural word; 45 minutes select the value 45 of the minute
unit and give the numeral 45 and the singular accusative word. -/
theorem C10_numeral_and_word_witness :
    selectedUnit (7 * Hour) = some (7, HOUR) ∧
      DurationToMSU arabicNumeral (7 * Hour) = "٧ ساعات" ∧
      selectedUnit (45 * Minute) = some (45, MINUTE) ∧
      DurationToMSU arabicNumeral (45 * Minute) = "٤٥ دقيقة" :=
  ⟨by decide!,
    (C10_numeral_and_word arabicNumeral (7 * Hour) 7 HOUR (by decide!) (by decide)).1.trans
      (by decide!),
    by decide!,
    (C10_numeral_and_word arabicNumeral (45 * Minute) 45 MINUTE (by decide!) (by decide)).1.trans
      (by decide!)⟩

/-- C11.  For every HjriDate `h` (its zone is a fixed offset),
`h.WeekStartingDay().Gregorian()` falls on a Sunday, is at local midnight, and
its local date is at most 6 days before the local date of `h.Gregorian()` and
never after it. -/
theorem C11_weekStartingDay_sunday (lib : HijriLib) (h : HjriDate) :
    (HjriDate.WeekStartingDay lib h).Gregorian.Weekday = 0 ∧
      (HjriDate.WeekStartingDay lib h).Gregorian.Hour = 0 ∧
      (HjriDate.WeekStartingDay lib h).Gregorian.Minute = 0 ∧
      (HjriDate.WeekStartingDay lib h).Gregorian.Second = 0 ∧
      (HjriDate.WeekStartingDay lib h).Gregorian.Nanosecond = 0 ∧
      (HjriDate.WeekStartingDay lib h).Gregorian.Location = h.Gregorian.Location ∧
      h.Gregorian.absDays - 6 ≤ (HjriDate.WeekStartingDay lib h).Gregorian.absDays ∧
      (HjriDate.WeekStartingDay lib h).Gregorian.absDays ≤ h.Gregorian.absDays := by
  obtain ⟨w0, w6⟩ := weekday_bounds h.t
  have hw : h.t.Weekday = (h.t.absDays + 1) % 7 := rfl
  have hday : (HjriDate.WeekStartingDay lib h).t.absDays = h.t.absDays - h.t.Weekday := by
    rw [weekStartingDay_t]
    exact absDays_midnight _ _
  have hclock : (HjriDate.WeekStartingDay lib h).t.Clock = (0, 0, 0) := by
    rw [weekStartingDay_t]
    exact (clock_midnight _ _).1
  have hns : (HjriDate.WeekStartingDay lib h).t.Nanosecond = 0 := by
    rw [weekStartingDay_t]
    exact (clock_midnight _ _).2
  have hloc : (HjriDate.WeekStartingDay lib h).t.loc = h.t.loc := by
    rw [weekStartingDay_t]
  have hwd : (HjriDate.WeekStartingDay lib h).t.Weekday = 0 := by
    show ((HjriDate.WeekStartingDay lib h).t.absDays + 1) % 7 = 0
    rw [hday]
    omega
  simp only [HjriDate.Gregorian, Time.Hour, Time.Minute, Time.Second, Time.Location, hclock, hns,
    hloc, hwd, hday, true_and]
  omega

/-- C12.  For every HjriDate `h`, `h.CurrentDayStart()` and `h.NextDayStart()`
keep the year, month, day and weekday of `h`, so `String()` is unchanged; only
the Gregorian instant changes, to local midnight of the Gregorian date of `h`
and of the following date, in the zone of `h`. -/
theorem C12_dayStart_frame (h : HjriDate) :
    (h.CurrentDayStart.year = h.year ∧ h.CurrentDayStart.month = h.month ∧
        h.CurrentDayStart.day = h.day ∧ h.CurrentDayStart.weekday = h.weekday ∧
        h.CurrentDayStart.String = h.String) ∧
      (h.NextDayStart.year = h.year ∧ h.NextDayStart.month = h.month ∧
        h.NextDayStart.day = h.day ∧ h.NextDayStart.weekday = h.weekday ∧
        h.NextDayStart.String = h.String) ∧
      (h.CurrentDayStart.Gregorian.Location = h.Gregorian.Location ∧
        h.CurrentDayStart.Gregorian.Date = h.Gregorian.Date ∧
        h.CurrentDayStart.Gregorian.Clock = (0, 0, 0) ∧
        h.CurrentDayStart.Gregorian.Nanosecond = 0) ∧
      (h.NextDayStart.Gregorian.Location = h.Gregorian.Location ∧
        h.NextDayStart.Gregorian.absDays = h.Gregorian.absDays + 1 ∧
        h.NextDayStart.Gregorian.Clock = (0, 0, 0) ∧
        h.NextDayStart.Gregorian.Nanosecond = 0) := by
  refine ⟨⟨rfl, rfl, rfl, rfl, rfl⟩, ⟨rfl, rfl, rfl, rfl, rfl⟩, ?_, ?_⟩
  · have ht : h.CurrentDayStart.t =
        { unixNano := ((h.t.absDays - unixEpochDays) * secondsPerDay - h.t.loc.offset) *
            1000000000,
          loc := h.t.loc } := by
      rw [HjriDate.CurrentDayStart, dayTime_t, add_zero]
    simp only [HjriDate.Gregorian, ht, Time.Location, Time.Date, absDays_midnight,
      clock_midnight, and_self]
  · have ht : h.NextDayStart.t =
        { unixNano := ((h.t.absDays + 1 - unixEpochDays) * secondsPerDay - h.t.loc.offset) *
            1000000000,
          loc := h.t.loc } := by
      rw [HjriDate.NextDayStart, dayTime_t]
    simp only [HjriDate.Gregorian, ht, Time.Location, absDays_midnight,
      clock_midnight, and_self]

/-- C13.  With the Riyadh zone at UTC+3, for all instants `x` and `y`,
`KSATimeOf(x).DayContains(y)` equals `HijriOf(x).DayContains(y)`: the current
day starts of the two are the same instant, and so are the next day starts. -/
theorem C13_containment_agrees (lib : HijriLib) (x y : Time) :
    KSATime.DayContains (KSATimeOf x) y = HjriDate.DayContains (HijriOf lib x) y ∧
      (KSATime.CurrentDayStartInUTC (KSATimeOf x)).unixNano =
        (HijriOf lib x).CurrentDayStart.Gregorian.unixNano ∧
      (KSATime.NextDayStartInUTC (KSATimeOf x)).unixNano =
        (HijriOf lib x).NextDayStart.Gregorian.unixNano := by
  have e0 : (KSATime.CurrentDayStartInUTC (KSATimeOf x)).unixNano =
      (HijriOf lib x).CurrentDayStart.Gregorian.unixNano := by
    simp only [KSATime.CurrentDayStartInUTC, ksaDayInUTC_unixNano, KSATimeOf_unixNano,
      HjriDate.CurrentDayStart, HjriDate.Gregorian, dayTime_t, HijriOf, Time.In, Time.UTC,
      Time.absDays, riyadhLoc, secondsPerDay, unixEpochDays]
    omega
  have e1 : (KSATime.NextDayStartInUTC (KSATimeOf x)).unixNano =
      (HijriOf lib x).NextDayStart.Gregorian.unixNano := by
    simp only [KSATime.NextDayStartInUTC, ksaDayInUTC_unixNano, KSATimeOf_unixNano,
      HjriDate.NextDayStart, HjriDate.Gregorian, dayTime_t, HijriOf, Time.In, Time.UTC,
      Time.absDays, riyadhLoc, secondsPerDay, unixEpochDays]
    omega
  refine ⟨?_, e0, e1⟩
  simp only [HjriDate.Gregorian] at e0 e1
  simp only [KSATime.DayContains, HjriDate.DayContains, Time.After, Time.Before, Time.UTC, e0, e1]

/-- C14.  Assume the forward conversion is a function of the instant, as the
specification describes it, and the conversions round-trip at day 1 of the
month of `h`.  Then for every instant `x` with `h = HijriOf(x)`,
`HijriOf(h.MonthStartingDay().Gregorian())` has the year and month of `h` and
day 1: the shifts of -3h and +3h cancel exactly, so the forward conversion is
handed the instant that the inverse conversion returned. -/
theorem C14_month_start_round_trip (lib : HijriLib) (x : Time)
    (hinst : ∀ a b : Time, a.unixNano = b.unixNano →
      lib.CreateUmmAlQuraDate a = lib.CreateUmmAlQuraDate b)
    (hrt :
      (lib.CreateUmmAlQuraDate (lib.ToGregorian
          { Day := 1, Month := toInt64 (HijriOf lib x).month,
            Year := toInt64 (HijriOf lib x).year, Weekday := (HijriOf lib x).weekday })).Year =
          toInt64 (HijriOf lib x).year ∧
        (lib.CreateUmmAlQuraDate (lib.ToGregorian
          { Day := 1, Month := toInt64 (HijriOf lib x).month,
            Year := toInt64 (HijriOf lib x).year, Weekday := (HijriOf lib x).weekday })).Month =
          toInt64 (HijriOf lib x).month ∧
        (lib.CreateUmmAlQuraDate (lib.ToGregorian
          { Day := 1, Month := toInt64 (HijriOf lib x).month,
            Year := toInt64 (HijriOf lib x).year, Weekday := (HijriOf lib x).weekday })).Day =
          1) :
    ((HjriDate.MonthStartingDay lib (HijriOf lib x)).Gregorian.UTC.Add (3 * Hour)).unixNano =
        (lib.ToGregorian
          { Day := 1, Month := toInt64 (HijriOf lib x).month,
            Year := toInt64 (HijriOf lib x).year, Weekday := (HijriOf lib x).weekday }).unixNano ∧
      (HijriOf lib (HjriDate.MonthStartingDay lib (HijriOf lib x)).Gregorian).year =
        (HijriOf lib x).year ∧
      (HijriOf lib (HjriDate.MonthStartingDay lib (HijriOf lib x)).Gregorian).month =
        (HijriOf lib x).month ∧
      (HijriOf lib (HjriDate.MonthStartingDay lib (HijriOf lib x)).Gregorian).day = 1 := by
  have hcancel :
      ((HjriDate.MonthStartingDay lib (HijriOf lib x)).Gregorian.UTC.Add (3 * Hour)).unixNano =
      (lib.ToGregorian
        { Day := 1, Month := toInt64 (HijriOf lib x).month,
            Year := toInt64 (HijriOf lib x).year, Weekday := (HijriOf lib x).weekday }).unixNano := by
    simp only [HjriDate.MonthStartingDay, HjriDate.Gregorian, Time.UTC, Time.Add, Time.In,
      Hour, Minute, Second]
    omega
  have hsame := hinst _ _ hcancel
  have hy : (HijriOf lib x).year < 2 ^ 64 := toUint_lt _
  have hm : (HijriOf lib x).month < 2 ^ 64 := toUint_lt _
  obtain ⟨r1, r2, r3⟩ := hrt
  refine ⟨hcancel, ?_, ?_, ?_⟩
  · show toUint (lib.CreateUmmAlQuraDate
      ((HjriDate.MonthStartingDay lib (HijriOf lib x)).Gregorian.UTC.Add (3 * Hour))).Year = _
    rw [hsame, r1, toUint_toInt64]
    omega
  · show toUint (lib.CreateUmmAlQuraDate
      ((HjriDate.MonthStartingDay lib (HijriOf lib x)).Gregorian.UTC.Add (3 * Hour))).Month = _
    rw [hsame, r2, toUint_toInt64]
    omega
  · show toUint (lib.CreateUmmAlQuraDate
      ((HjriDate.MonthStartingDay lib (HijriOf lib x)).Gregorian.UTC.Add (3 * Hour))).Day = _
    rw [hsame, r3]
    decide

/-- C14, witness: the toy library at the Unix epoch; the month start of day 3
of month 9 converts back to day 1 of month 9. -/
theorem C14_month_start_round_trip_witness :
    (HijriOf toyLib ⟨0, utcLoc⟩).month = 9 ∧
      (HijriOf toyLib ⟨0, utcLoc⟩).day = 3 ∧
      (HijriOf toyLib
        (HjriDate.MonthStartingDay toyLib (HijriOf toyLib ⟨0, utcLoc⟩)).Gregorian).month =
        (HijriOf toyLib ⟨0, utcLoc⟩).month ∧
      (HijriOf toyLib
        (HjriDate.MonthStartingDay toyLib (HijriOf toyLib ⟨0, utcLoc⟩)).Gregorian).day = 1 :=
  have h := C14_month_start_round_trip toyLib ⟨0, utcLoc⟩ toyLib_instant_only (by decide!)
  ⟨by decide, by decide, h.2.2.1, h.2.2.2⟩

/-- C15, the code at the failing input.  `AddDate` and `WeekStartingDay` hand
the forward conversion their Gregorian time as it is, where `HijriOf` hands it
the time moved three hours forward.  With the toy library, which like the
conversion of the specification reads the instant, and `h = HijriOf(x)` for
`x` = 22:00:00 UTC on 22 May 2024 (01:00 of 23 May in Riyadh):
`h.AddDate(0, 0, 0)` has day 8 where `HijriOf` of its Gregorian instant has
day 9, and `h.WeekStartingDay()` has day 4 where `HijriOf` of its Gregorian
instant has day 5. -/
theorem C15_navigation_skips_offset (lib : HijriLib) (h : HjriDate) (years months days : Int) :
    (HjriDate.AddDate lib h years months days).day =
        toUint (lib.CreateUmmAlQuraDate (HjriDate.AddDate lib h years months days).Gregorian).Day ∧
      (HijriOf lib (HjriDate.AddDate lib h years months days).Gregorian).day =
        toUint (lib.CreateUmmAlQuraDate
          ((HjriDate.AddDate lib h years months days).Gregorian.UTC.Add (3 * Hour))).Day ∧
      (HijriOf toyLib ⟨1716415200000000000, utcLoc⟩).day = 9 ∧
      (HjriDate.AddDate toyLib (HijriOf toyLib ⟨1716415200000000000, utcLoc⟩) 0 0 0).Gregorian =
        (HijriOf toyLib ⟨1716415200000000000, utcLoc⟩).Gregorian ∧
      (HjriDate.AddDate toyLib (HijriOf toyLib ⟨1716415200000000000, utcLoc⟩) 0 0 0).day = 8 ∧
      (HijriOf toyLib
        (HjriDate.AddDate toyLib (HijriOf toyLib ⟨1716415200000000000, utcLoc⟩) 0 0 0).Gregorian).day = 9 ∧
      (HjriDate.WeekStartingDay toyLib (HijriOf toyLib ⟨1716415200000000000, utcLoc⟩)).day = 4 ∧
      (HijriOf toyLib
        (HjriDate.WeekStartingDay toyLib (HijriOf toyLib ⟨1716415200000000000, utcLoc⟩)).Gregorian).day = 5 :=
  ⟨rfl, rfl, by decide!, by decide!, by decide!, by decide!, by decide!, by decide!⟩

/-- C16.  For every instant `x`, `KSATimeOf(x).WeekDate()` is the date of a
Sunday, at most 6 days before the date `KSATimeOf(x).Date()` and not after it;
when that date is itself a Sunday the two strings are equal. -/
theorem C16_weekDate_sunday (x : Time) :
    KSATime.Date (KSATimeOf x) = formatDate (absDate (KSATimeOf x).absDays) ∧
      (∃ s : Time, KSATime.WeekDate (KSATimeOf x) = Time.Format s ∧
        Time.Weekday s = 0 ∧
        Time.absDays s ≤ (KSATimeOf x).absDays ∧
        (KSATimeOf x).absDays - 6 ≤ Time.absDays s ∧
        Time.absDays s = (KSATimeOf x).absDays - Time.Weekday (KSATimeOf x)) ∧
      (Time.Weekday (KSATimeOf x) = 0 →
        KSATime.WeekDate (KSATimeOf x) = KSATime.Date (KSATimeOf x)) := by
  obtain ⟨w0, w6⟩ := weekday_bounds (KSATimeOf x)
  have hw : Time.Weekday (KSATimeOf x) = ((KSATimeOf x).absDays + 1) % 7 := rfl
  have h0 := goDate_absDate ((KSATimeOf x).absDays + -Time.Weekday (KSATimeOf x)) 0
    (KSATimeOf x).loc
  simp only [add_zero] at h0
  have hwd : KSATime.WeekDate (KSATimeOf x) =
      Time.Format
        { unixNano := (((KSATimeOf x).absDays + -Time.Weekday (KSATimeOf x) - unixEpochDays) *
            secondsPerDay - (KSATimeOf x).loc.offset) * 1000000000,
          loc := (KSATimeOf x).loc } := by
    simp only [KSATime.WeekDate, addDate_days, Time.Date, absDays_add_days, Time.Location, h0]
  refine ⟨rfl, ⟨_, hwd, ?_, ?_, ?_, ?_⟩, ?_⟩
  · show (Time.absDays _ + 1) % 7 = 0
    rw [absDays_midnight]
    omega
  · rw [absDays_midnight]
    omega
  · rw [absDays_midnight]
    omega
  · rw [absDays_midnight]
    omega
  · intro hz
    rw [hwd]
    simp only [KSATime.Date, Time.Format, Time.Date, absDays_midnight, hz, neg_zero, add_zero]

/-- C17.  For every instant `x`, `KSATimeOf(x).MonthDate()` is the date with
the year and month of `KSATimeOf(x).Date()` and day 1. -/
theorem C17_monthDate_first (x : Time) :
    KSATime.Date (KSATimeOf x) = formatDate (Time.Date (KSATimeOf x)) ∧
      KSATime.MonthDate (KSATimeOf x) =
        formatDate ((Time.Date (KSATimeOf x)).1, (Time.Date (KSATimeOf x)).2.1, 1) := by
  refine ⟨rfl, ?_⟩
  have h := date_first_of_month (Time.absDays (KSATimeOf x)) (Time.Location (KSATimeOf x))
  simp only [KSATime.MonthDate, Time.Format]
  rw [show Time.Date (KSATimeOf x) = absDate (Time.absDays (KSATimeOf x)) from rfl, h]

/-- C18.  For every instant `x`, `KSATimeOf(x).CurrentDayStartInUTC()` is the
latest instant `s` with `s ≤ x` such that `s + 3h` is a UTC midnight, a whole
multiple of 24h from the epoch; and `x` is before
`KSATimeOf(x).NextDayStartInUTC()`. -/
theorem C18_offset_once (x : Time) :
    (KSATime.CurrentDayStartInUTC (KSATimeOf x)).unixNano ≤ x.unixNano ∧
      ((KSATime.CurrentDayStartInUTC (KSATimeOf x)).unixNano + 3 * Hour) % (24 * Hour) = 0 ∧
      (∀ s : Int, s ≤ x.unixNano → (s + 3 * Hour) % (24 * Hour) = 0 →
        s ≤ (KSATime.CurrentDayStartInUTC (KSATimeOf x)).unixNano) ∧
      x.unixNano < (KSATime.NextDayStartInUTC (KSATimeOf x)).unixNano := by
  simp only [KSATime.CurrentDayStartInUTC, KSATime.NextDayStartInUTC, ksaDayInUTC_unixNano,
    KSATimeOf_unixNano, Hour, Minute, Second]
  refine ⟨by omega, by omega, ?_, by omega⟩
  intro s h1 h2
  omega

/-- C19.  Every call that `DurationToMSU` makes to `fmtDurationInAR` has a
value of at least 1; the hour value is in 1..23 and the minute value is in
1..59. -/
theorem C19_rendered_value_positive (numeral : Int → String) (d v : Int) (u : TimeUnit)
    (hsel : selectedUnit d = some (v, u)) :
    DurationToMSU numeral d = fmtDurationInAR numeral v u ∧ 1 ≤ v ∧
      (u = HOUR → v ≤ 23) ∧ (u = MINUTE → v ≤ 59) := by
  obtain ⟨e1, e2, -⟩ := DurationToMSU_of_selected numeral d v u hsel
  refine ⟨e1, e2, ?_, ?_⟩
  · intro hu
    subst hu
    unfold selectedUnit at hsel
    simp only at hsel
    obtain ⟨n1, n2, n3⟩ := unit_ne
    split_ifs at hsel with h1 h2 h3
    · simp only [Option.some.injEq, Prod.mk.injEq] at hsel
      exact absurd hsel.2.symm n1
    · simp only [Option.some.injEq, Prod.mk.injEq] at hsel
      obtain ⟨hv, -⟩ := hsel
      subst hv
      obtain ⟨b1, -, -⟩ := tdiv_tmod_bounds (wholeMinutes d) (60 * 24) (by norm_num)
      obtain ⟨-, -, b3⟩ := tdiv_tmod_bounds (Int.tmod (wholeMinutes d) (60 * 24)) 60 (by norm_num)
      have b4 := b3 h2
      rw [Int.tdiv_eq_ediv (by omega) (by omega)]
      omega
    · simp only [Option.some.injEq, Prod.mk.injEq] at hsel
      exact absurd hsel.2 n3
  · intro hu
    subst hu
    unfold selectedUnit at hsel
    simp only at hsel
    obtain ⟨n1, n2, n3⟩ := unit_ne
    split_ifs at hsel with h1 h2 h3
    · simp only [Option.some.injEq, Prod.mk.injEq] at hsel
      exact absurd hsel.2.symm n2
    · simp only [Option.some.injEq, Prod.mk.injEq] at hsel
      exact absurd hsel.2.symm n3
    · simp only [Option.some.injEq, Prod.mk.injEq] at hsel
      obtain ⟨hv, -⟩ := hsel
      subst hv
      obtain ⟨b1, -, -⟩ := tdiv_tmod_bounds (wholeMinutes d) 60 (by norm_num)
      omega

/-- C19, witness: 23 hours and 59 minutes render the hour value 23, and 59
minutes render the minute value 59. -/
theorem C19_rendered_value_positive_witness :
    selectedUnit (23 * Hour + 59 * Minute) = some (23, HOUR) ∧
      DurationToMSU arabicNumeral (23 * Hour + 59 * Minute) = "٢٣ ساعة" ∧ (1 : Int) ≤ 23 :=
  have h := C19_rendered_value_positive arabicNumeral (23 * Hour + 59 * Minute) 23 HOUR (by decide!)
  ⟨by decide!, h.1.trans (by decide!), h.2.1⟩

/-- C20.  For every HjriDate `h`, `h.MonthStartingDay()` has the year and
month of `h` and day 1, and applying `MonthStartingDay` again returns the same
value in every field, the Gregorian instant included. -/
theorem C20_monthStartingDay_idempotent (lib : HijriLib) (h : HjriDate)
    (hy : h.year < 2 ^ 64) (hm : h.month < 2 ^ 64) :
    (HjriDate.MonthStartingDay lib h).year = h.year ∧
      (HjriDate.MonthStartingDay lib h).month = h.month ∧
      (HjriDate.MonthStartingDay lib h).day = 1 ∧
      HjriDate.MonthStartingDay lib (HjriDate.MonthStartingDay lib h) =
        HjriDate.MonthStartingDay lib h := by
  refine ⟨?_, ?_, ?_, ?_⟩
  · simp only [HjriDate.MonthStartingDay, toUint_toInt64]
    omega
  · simp only [HjriDate.MonthStartingDay, toUint_toInt64]
    omega
  · simp only [HjriDate.MonthStartingDay]
    decide
  · simp only [HjriDate.MonthStartingDay, toInt64_toUint_toInt64, Time.In, Time.Location]

/-- C20, witness: the month start of day 15 of month 9 of 1445, with the toy
library. -/
theorem C20_monthStartingDay_idempotent_witness :
    (HjriDate.MonthStartingDay toyLib
        { year := 1445, month := 9, day := 15, weekday := 2, t := ⟨0, riyadhLoc⟩ }).month = 9 ∧
      HjriDate.MonthStartingDay toyLib
          (HjriDate.MonthStartingDay toyLib
            { year := 1445, month := 9, day := 15, weekday := 2, t := ⟨0, riyadhLoc⟩ }) =
        HjriDate.MonthStartingDay toyLib
          { year := 1445, month := 9, day := 15, weekday := 2, t := ⟨0, riyadhLoc⟩ } :=
  have h := C20_monthStartingDay_idempotent toyLib
    { year := 1445, month := 9, day := 15, weekday := 2, t := ⟨0, riyadhLoc⟩ }
    (by decide) (by decide)
  ⟨h.2.1, h.2.2.2⟩

end Taqweem
